import Mathlib

/-!
# Verification of the `http-msg-sig` core (RFC 9421-style signature base)

Shallow embedding of `src/index.js`: `createSignatureForRequest` and
`verifySignatureOfRequest`, together with the boundary of the external
structured-field codec (`encodeDict`, `encodeItem`, `decodeDict` from the
`structured-field-values` package) as specified in the repository spec §6.

JavaScript numbers are modelled as `Int`: decoded structured-field integers
are integral, and the clock values `Date.now() / 1000` and `maxAge` are
modelled at whole-second resolution (no claim depends on fractional
seconds).  `Uint8Array` is `List Nat` (entries < 256).  The impure inputs of
the verification engine (`Date.now`, `crypto.subtle.digest`) and the injected
callbacks are passed as explicit function arguments.
-/

namespace HttpMsgSig

/-- A structured-field bare value as produced/consumed by the external codec:
JS numbers (integers here), strings, booleans, and byte sequences
(`Uint8Array`). -/
inductive SfValue where
  | int (n : Int)
  | str (s : String)
  | bool (b : Bool)
  | bytes (bs : List Nat)
deriving DecidableEq, Repr

/-- Ordered parameter mapping attached to items (insertion order preserved). -/
abbrev Params := List (String × SfValue)

/-- A member of a structured-field inner list: a bare item with parameters.
In this library these are the component identifiers of a signature input. -/
structure InnerItem where
  value : SfValue
  params : Params
deriving DecidableEq, Repr

/-- The value of a top-level dictionary item: a bare item or an inner list. -/
inductive ItemValue where
  | bare (v : SfValue)
  | inner (l : List InnerItem)
deriving DecidableEq, Repr

/-- A structured-field dictionary member value (the codec's `Item`). -/
structure DictItem where
  value : ItemValue
  params : Params
deriving DecidableEq, Repr

/-- A structured-field dictionary, in insertion order. -/
abbrev Dict := List (String × DictItem)

/-! ## Decimal printing of numbers (JS `String(n)` for integers) -/

/-- Decimal digit character for `d < 10`. -/
def digitChar (d : Nat) : Char := Char.ofNat (48 + d)

/-- Decimal digits of a natural number, most significant first (the `fuel`
argument only bounds the recursion depth; `fuel = n + 1` always suffices). -/
def natDigitsF : Nat → Nat → List Char
  | 0, _ => []
  | fuel + 1, n =>
      if n < 10 then [digitChar n]
      else natDigitsF fuel (n / 10) ++ [digitChar (n % 10)]

/-- Decimal digits of a natural number, most significant first. -/
def natDigits (n : Nat) : List Char := natDigitsF (n + 1) n

/-- Decimal representation of a natural number. -/
def natRepr (n : Nat) : String := String.mk (natDigits n)

/-- Decimal representation of an integer (JS `String(n)` for integral `n`). -/
def intRepr (n : Int) : String :=
  if n < 0 then "-" ++ natRepr n.natAbs else natRepr n.natAbs

/-! ## Base64 (the codec's byte-sequence text form, and JS `btoa`) -/

/-- The base64 alphabet. -/
def b64Alphabet : List Char :=
  "ABCDEFGHIJKLMNOPQRSTUVWXYZabcdefghijklmnopqrstuvwxyz0123456789+/".data

/-- Character for a sextet (`n < 64`). -/
def b64char (n : Nat) : Char := b64Alphabet.getD n 'A'

/-- Index of a character in a list (used to invert the base64 alphabet). -/
def charIndex : List Char → Nat → Char → Option Nat
  | [], _, _ => none
  | a :: rest, i, c => if a = c then some i else charIndex rest (i + 1) c

/-- Sextet value of a base64 character. -/
def b64val (c : Char) : Option Nat := charIndex b64Alphabet 0 c

/-- Base64 encoding of a byte sequence (with `=` padding). -/
def encode64 : List Nat → List Char
  | [] => []
  | [a] => [b64char (a / 4), b64char (a % 4 * 16), '=', '=']
  | [a, b] => [b64char (a / 4), b64char (a % 4 * 16 + b / 16), b64char (b % 16 * 4), '=']
  | a :: b :: c :: rest =>
      b64char (a / 4) :: b64char (a % 4 * 16 + b / 16) ::
      b64char (b % 16 * 4 + c / 64) :: b64char (c % 64) :: encode64 rest

/-- Base64 decoding; `none` on malformed input. -/
def decode64 : List Char → Option (List Nat)
  | [] => some []
  | c1 :: c2 :: c3 :: c4 :: rest =>
      if c3 = '=' then
        if c4 = '=' ∧ rest = [] then do
          let s1 ← b64val c1
          let s2 ← b64val c2
          if s2 % 16 = 0 then some [s1 * 4 + s2 / 16] else none
        else none
      else if c4 = '=' then
        if rest = [] then do
          let s1 ← b64val c1
          let s2 ← b64val c2
          let s3 ← b64val c3
          if s3 % 4 = 0 then some [s1 * 4 + s2 / 16, s2 % 16 * 16 + s3 / 4] else none
        else none
      else do
        let s1 ← b64val c1
        let s2 ← b64val c2
        let s3 ← b64val c3
        let s4 ← b64val c4
        let tail ← decode64 rest
        some ((s1 * 4 + s2 / 16) :: (s2 % 16 * 16 + s3 / 4) :: (s3 % 4 * 64 + s4) :: tail)
  | _ => none

/-- Base64 text characters (alphabet plus padding), as accepted inside the
codec's `:`-delimited byte-sequence syntax. -/
def isB64Char (c : Char) : Bool :=
  c.isAlpha || c.isDigit || c = '+' || c = '/' || c = '='

/-! ## Encoding (the external codec's `encodeItem` / `encodeDict`)

Modelled from the spec: the repository delegates serialization to the
external `structured-field-values` codec (spec §6); the canonical forms are
fixed by spec §3 ("a quoted component key optionally followed by
`;param="value"` pairs in insertion order") and the header formats of §6. -/

/-- Canonical text of a bare value. -/
def encodeBare : SfValue → String
  | .int n => intRepr n
  | .str s => "\"" ++ s ++ "\""
  | .bool b => if b then "?1" else "?0"
  | .bytes bs => ":" ++ String.mk (encode64 bs) ++ ":"

/-- Canonical text of a parameter list: `;key=value` per entry, in order. -/
def encodeParams (ps : Params) : String :=
  ps.foldr (fun p acc => ";" ++ p.1 ++ "=" ++ encodeBare p.2 ++ acc) ""

/-- Join a list of strings with a separator (`String.intercalate`). -/
def joinSep (sep : String) : List String → String
  | [] => ""
  | [x] => x
  | x :: y :: rest => x ++ sep ++ joinSep sep (y :: rest)

/-- Canonical text of an inner-list member (bare value plus parameters);
this is the canonical serialized key of a component identifier. -/
def encodeInnerItem (it : InnerItem) : String :=
  encodeBare it.value ++ encodeParams it.params

/-- Canonical text of an item value. -/
def encodeItemValue : ItemValue → String
  | .bare v => encodeBare v
  | .inner l => "(" ++ joinSep " " (l.map encodeInnerItem) ++ ")"

/-- The codec's `encodeItem`: item value followed by its parameters. -/
def encodeItem (it : DictItem) : String :=
  encodeItemValue it.value ++ encodeParams it.params

/-- The codec's `encodeDict`: `key=item` members joined by `", "`. -/
def encodeDict (d : Dict) : String :=
  joinSep ", " (d.map fun m => m.1 ++ "=" ++ encodeItem m.2)

/-! ## Parsing (the external codec's `decodeDict`)

Modelled from the spec: `decodeDictionary(text) → Outcome<Dictionary>` (§6),
reading the structured-field dictionary syntax
`label=(component-list);param=value, label2=...` used by the
`Signature-Input` / `Signature` headers.  Each parser consumes a prefix of the
character list and returns the parsed value with the remaining characters. -/

/-- Characters allowed inside a structured-field key (after the first). -/
def isKeyChar (c : Char) : Bool :=
  ('a' ≤ c && c ≤ 'z') || c.isDigit || c = '_' || c = '-' || c = '.' || c = '*'

/-- Characters allowed as the first character of a key. -/
def isKeyStart (c : Char) : Bool := ('a' ≤ c && c ≤ 'z') || c = '*'


/-- Longest prefix of characters satisfying `p`, with the remainder. -/
def spanP (p : Char → Bool) : List Char → List Char × List Char
  | [] => ([], [])
  | c :: rest =>
      if p c then
        let sp := spanP p rest
        (c :: sp.1, sp.2)
      else ([], c :: rest)

theorem spanP_snd_length_le (p : Char → Bool) (cs : List Char) :
    (spanP p cs).2.length ≤ cs.length := by
  induction cs with
  | nil => simp [spanP]
  | cons c rest ih =>
      simp only [spanP]
      split
      · simpa using Nat.le_succ_of_le ih
      · simp

/-- `spanP` splits an already-separated concatenation at the separator. -/
theorem spanP_append (p : Char → Bool) (l r : List Char)
    (hl : ∀ c ∈ l, p c = true)
    (hr : ∀ c, r.head? = some c → p c = false) :
    spanP p (l ++ r) = (l, r) := by
  induction l with
  | nil =>
      cases r with
      | nil => simp [spanP]
      | cons c rest =>
          have := hr c rfl
          simp [spanP, this]
  | cons c rest ih =>
      have hc := hl c (by simp)
      simp only [List.cons_append, spanP, hc, if_pos]
      have hih := ih (fun x hx => hl x (by simp [hx]))
      simp only [List.append_eq] at hih ⊢
      rw [hih]

/-- Parse a structured-field key (longest run of key characters). -/
def parseKey : List Char → Option (String × List Char)
  | [] => none
  | c :: rest =>
      if isKeyStart c then
        let sp := spanP isKeyChar rest
        some (String.mk (c :: sp.1), sp.2)
      else none

/-- Decimal value of a digit run. -/
def digitsToNat (ds : List Char) : Nat :=
  ds.foldl (fun a c => a * 10 + (c.toNat - 48)) 0

/-- Parse a nonempty digit run as a natural number. -/
def parseDigits (cs : List Char) : Option (Nat × List Char) :=
  let sp := spanP Char.isDigit cs
  if sp.1.isEmpty then none else some (digitsToNat sp.1, sp.2)

/-- Parse a (possibly negative) structured-field integer. -/
def parseIntCs : List Char → Option (Int × List Char)
  | [] => none
  | c :: rest =>
      if c = '-' then (parseDigits rest).map fun p => (-(p.1 : Int), p.2)
      else (parseDigits (c :: rest)).map fun p => ((p.1 : Int), p.2)

/-- Parse the content of a quoted string after the opening quote, up to and
including the closing quote.  Escape sequences are not modelled. -/
def parseStrChars : List Char → Option (List Char × List Char)
  | [] => none
  | c :: rest =>
      if c = '"' then some ([], rest)
      else if c = '\\' then none
      else (parseStrChars rest).map fun p => (c :: p.1, p.2)

/-- Expect (and consume) exactly the character `c`. -/
def expectChar (c : Char) : List Char → Option (List Char)
  | [] => none
  | c2 :: rest => if c2 = c then some rest else none

theorem expectChar_length {c : Char} {cs r : List Char}
    (h : expectChar c cs = some r) : r.length < cs.length := by
  match cs with
  | [] => simp [expectChar] at h
  | c2 :: rest =>
      simp only [expectChar] at h
      split at h
      · simp only [Option.some.injEq] at h
        rw [← h]; simp
      · simp at h

/-- Parse one bare item (integer, string, byte sequence, or boolean),
dispatching on the first character as the grammar does. -/
def parseBare : List Char → Option (SfValue × List Char)
  | [] => none
  | c :: rest =>
      if c = '"' then
        (parseStrChars rest).map fun p => (.str (String.mk p.1), p.2)
      else if c = ':' then
        let sp := spanP isB64Char rest
        (expectChar ':' sp.2).bind fun r2 =>
          (decode64 sp.1).map fun bs => (.bytes bs, r2)
      else if c = '?' then
        match rest with
        | [] => none
        | c2 :: r2 =>
            if c2 = '0' then some (.bool false, r2)
            else if c2 = '1' then some (.bool true, r2)
            else none
      else if c = '-' ∨ c.isDigit then
        (parseIntCs (c :: rest)).map fun p => (.int p.1, p.2)
      else none

theorem parseKey_length {cs : List Char} {k : String} {r : List Char}
    (h : parseKey cs = some (k, r)) : r.length < cs.length := by
  match cs with
  | [] => simp [parseKey] at h
  | c :: rest =>
      simp only [parseKey] at h
      split at h
      · simp only [Option.some.injEq, Prod.mk.injEq] at h
        have := spanP_snd_length_le isKeyChar rest
        rw [← h.2]
        simp only [List.length_cons]
        omega
      · simp at h

theorem parseStrChars_length {cs : List Char} {s r : List Char}
    (h : parseStrChars cs = some (s, r)) : r.length < cs.length := by
  induction cs generalizing s r with
  | nil => simp [parseStrChars] at h
  | cons c rest ih =>
      simp only [parseStrChars] at h
      split at h
      · simp only [Option.some.injEq, Prod.mk.injEq] at h
        rw [← h.2]; simp
      · split at h
        · simp at h
        · match h2 : parseStrChars rest with
          | none => rw [h2] at h; simp at h
          | some (s', r') =>
              rw [h2] at h
              simp only [Option.map_some', Option.some.injEq, Prod.mk.injEq] at h
              have := ih h2
              rw [← h.2]
              simp only [List.length_cons]
              omega

theorem parseDigits_length {cs : List Char} {n : Nat} {r : List Char}
    (h : parseDigits cs = some (n, r)) : r.length ≤ cs.length := by
  simp only [parseDigits] at h
  split at h
  · simp at h
  · simp only [Option.some.injEq, Prod.mk.injEq] at h
    rw [← h.2]
    exact spanP_snd_length_le Char.isDigit cs

theorem parseIntCs_length {cs : List Char} {n : Int} {r : List Char}
    (h : parseIntCs cs = some (n, r)) : r.length < cs.length := by
  match cs with
  | [] => simp [parseIntCs] at h
  | c :: rest =>
      simp only [parseIntCs] at h
      split at h
      · match h2 : parseDigits rest with
        | none => rw [h2] at h; simp at h
        | some (m, r') =>
            rw [h2] at h
            simp only [Option.map_some', Option.some.injEq, Prod.mk.injEq] at h
            have := parseDigits_length h2
            rw [← h.2]
            simp only [List.length_cons]
            omega
      · match h2 : parseDigits (c :: rest) with
        | none => rw [h2] at h; simp at h
        | some (m, r') =>
            rw [h2] at h
            simp only [Option.map_some', Option.some.injEq, Prod.mk.injEq] at h
            simp only [parseDigits] at h2
            split at h2
            · simp at h2
            · rename_i hne
              simp only [Option.some.injEq, Prod.mk.injEq] at h2
              rw [← h.2, ← h2.2]
              simp only [spanP] at hne ⊢
              cases hd : Char.isDigit c with
              | false => simp [hd, List.isEmpty] at hne
              | true =>
                  simp only [hd, if_pos]
                  have := spanP_snd_length_le Char.isDigit rest
                  simp only [List.length_cons]
                  omega

theorem parseBare_length {cs : List Char} {v : SfValue} {r : List Char}
    (h : parseBare cs = some (v, r)) : r.length < cs.length := by
  match cs with
  | [] => simp [parseBare] at h
  | c :: rest =>
      simp only [parseBare] at h
      split at h
      · match h2 : parseStrChars rest with
        | none => rw [h2] at h; simp at h
        | some (s', r') =>
            rw [h2] at h
            simp only [Option.map_some', Option.some.injEq, Prod.mk.injEq] at h
            have := parseStrChars_length h2
            rw [← h.2]
            simp only [List.length_cons]
            omega
      · split at h
        · match h3 : expectChar ':' (spanP isB64Char rest).2 with
          | none => rw [h3] at h; simp at h
          | some r2 =>
              rw [h3] at h
              match h4 : decode64 (spanP isB64Char rest).1 with
              | none => rw [h4] at h; simp at h
              | some bs =>
                  rw [h4] at h
                  simp only [Option.some_bind, Option.map_some', Option.some.injEq,
                    Prod.mk.injEq] at h
                  have h5 := spanP_snd_length_le isB64Char rest
                  have h6 := expectChar_length h3
                  rw [← h.2]
                  simp only [List.length_cons]
                  omega
        · split at h
          · match rest with
            | [] => simp at h
            | c2 :: r2 =>
                simp only at h
                split at h
                · simp only [Option.some.injEq, Prod.mk.injEq] at h
                  rw [← h.2]; simp; omega
                · split at h
                  · simp only [Option.some.injEq, Prod.mk.injEq] at h
                    rw [← h.2]; simp; omega
                  · simp at h
          · split at h
            · match h2 : parseIntCs (c :: rest) with
              | none => rw [h2] at h; simp at h
              | some (m, r') =>
                  rw [h2] at h
                  simp only [Option.map_some', Option.some.injEq, Prod.mk.injEq] at h
                  have := parseIntCs_length h2
                  rw [← h.2]
                  exact this
            · simp at h


/-- Parse a parameter list: `;key=value` repeated (a key alone stands for
boolean true), with optional spaces after each `;`.  The `fuel` argument only
bounds the recursion depth (one unit per parameter suffices). -/
def parseParamsF : Nat → List Char → Option (Params × List Char)
  | 0, _ => none
  | _ + 1, [] => some ([], [])
  | fuel + 1, c :: rest =>
      if c = ';' then
        let rest2 := (spanP (fun x => x = ' ') rest).2
        match parseKey rest2 with
        | none => none
        | some (k, r1) =>
            match r1 with
            | [] => some ([(k, .bool true)], [])
            | c2 :: r2 =>
                if c2 = '=' then
                  match parseBare r2 with
                  | none => none
                  | some (v, r3) =>
                      (parseParamsF fuel r3).map fun p => ((k, v) :: p.1, p.2)
                else
                  (parseParamsF fuel (c2 :: r2)).map fun p =>
                    ((k, .bool true) :: p.1, p.2)
      else some ([], c :: rest)

/-- Parse the members of an inner list after the opening parenthesis, up to
and including the closing parenthesis.  Two fuel units per member suffice. -/
def parseInnerItemsF : Nat → List Char → Option (List InnerItem × List Char)
  | 0, _ => none
  | _ + 1, [] => none
  | fuel + 1, c :: rest =>
      if c = ')' then some ([], rest)
      else if c = ' ' then parseInnerItemsF fuel rest
      else
        (parseBare (c :: rest)).bind fun br =>
        (parseParamsF fuel br.2).bind fun pr =>
        (parseInnerItemsF fuel pr.2).map fun p => (⟨br.1, pr.1⟩ :: p.1, p.2)

/-- Parse one dictionary member value: an inner list or a bare item, followed
by parameters. -/
def parseMemberValueF (fuel : Nat) (cs : List Char) : Option (DictItem × List Char) :=
  match cs with
  | [] => none
  | c :: rest =>
      if c = '(' then
        (parseInnerItemsF fuel rest).bind fun ir =>
        (parseParamsF fuel ir.2).map fun pr => (⟨.inner ir.1, pr.1⟩, pr.2)
      else
        (parseBare (c :: rest)).bind fun br =>
        (parseParamsF fuel br.2).map fun pr => (⟨.bare br.1, pr.1⟩, pr.2)

/-- Parse a dictionary: `key=value` members separated by commas (with
optional spaces after each comma).  One fuel unit per member suffices. -/
def parseMembersF : Nat → List Char → Option (Dict × List Char)
  | 0, _ => none
  | fuel + 1, cs =>
      (parseKey cs).bind fun kr =>
      match kr.2 with
      | [] => none
      | c :: r2 =>
          if c = '=' then
            (parseMemberValueF (fuel + 1) r2).bind fun ir =>
            match ir.2 with
            | [] => some ([(kr.1, ir.1)], [])
            | c2 :: r4 =>
                if c2 = ',' then
                  (parseMembersF fuel ((spanP (fun x => x = ' ') r4).2)).map
                    fun p => ((kr.1, ir.1) :: p.1, p.2)
                else some ([(kr.1, ir.1)], c2 :: r4)
          else none

/-- The codec's `decodeDict`: parse a complete structured-field dictionary,
failing when the text does not parse or has trailing garbage.  The fuel
`length + 1` suffices because every recursion step consumes input. -/
def decodeDict (s : String) : Except String Dict :=
  match parseMembersF (s.data.length + 1) s.data with
  | some (d, []) => .ok d
  | some (_, _ :: _) => .error "Failed to decode structured field dictionary"
  | none => .error "Failed to decode structured field dictionary"

/-! ## Printer / parser inversion groundwork -/

theorem string_mk_data (s : String) : String.mk s.data = s := by cases s; rfl

theorem string_data_append (a b : String) : (a ++ b).data = a.data ++ b.data := by
  cases a; cases b; rfl

theorem string_eq_of_data {a b : String} (h : a.data = b.data) : a = b :=
  congrArg String.mk h

theorem digitChar_toNat {d : Nat} (h : d < 10) : (digitChar d).toNat = 48 + d := by
  interval_cases d <;> decide

theorem digitChar_isDigit {d : Nat} (h : d < 10) : (digitChar d).isDigit = true := by
  interval_cases d <;> decide

theorem digitsToNat_append (a : List Char) (c : Char) :
    digitsToNat (a ++ [c]) = 10 * digitsToNat a + (c.toNat - 48) := by
  simp only [digitsToNat, List.foldl_append, List.foldl_cons, List.foldl_nil]
  omega

theorem digitsToNat_natDigitsF :
    ∀ fuel n, n < 10 ^ fuel → digitsToNat (natDigitsF fuel n) = n := by
  intro fuel
  induction fuel with
  | zero =>
      intro n hn
      simp only [pow_zero, Nat.lt_one_iff] at hn
      subst hn
      simp [natDigitsF, digitsToNat]
  | succ f ih =>
      intro n hn
      simp only [natDigitsF]
      split
      · rename_i h10
        simp only [digitsToNat, List.foldl_cons, List.foldl_nil]
        rw [digitChar_toNat h10]
        omega
      · rename_i h10
        rw [digitsToNat_append]
        have hdiv : n / 10 < 10 ^ f := by
          apply Nat.div_lt_of_lt_mul
          rw [← pow_succ']
          exact hn
        rw [ih _ hdiv, digitChar_toNat (Nat.mod_lt n (by omega))]
        omega

theorem natDigits_roundtrip (n : Nat) : digitsToNat (natDigits n) = n := by
  apply digitsToNat_natDigitsF
  calc n < 10 ^ n := Nat.lt_pow_self (by omega) n
    _ ≤ 10 ^ (n + 1) := Nat.pow_le_pow_right (by omega) (by omega)

theorem natDigitsF_all_digits :
    ∀ fuel n, ∀ c ∈ natDigitsF fuel n, c.isDigit = true := by
  intro fuel
  induction fuel with
  | zero => intro n c hc; simp [natDigitsF] at hc
  | succ f ih =>
      intro n c hc
      simp only [natDigitsF] at hc
      split at hc
      · rename_i h10
        simp only [List.mem_singleton] at hc
        subst hc
        exact digitChar_isDigit h10
      · simp only [List.mem_append, List.mem_singleton] at hc
        rcases hc with hc | hc
        · exact ih _ c hc
        · subst hc
          exact digitChar_isDigit (Nat.mod_lt n (by omega))

theorem natDigits_all_digits (n : Nat) : ∀ c ∈ natDigits n, c.isDigit = true :=
  natDigitsF_all_digits (n + 1) n

theorem natDigits_ne_nil (n : Nat) : natDigits n ≠ [] := by
  simp only [natDigits, natDigitsF]
  split <;> simp

/-! ## Base64 roundtrip -/

theorem b64val_b64char : ∀ n < 64, b64val (b64char n) = some n := by decide

theorem b64char_isB64Char (n : Nat) : isB64Char (b64char n) = true := by
  by_cases h : n < 64
  · revert h
    revert n
    decide
  · have hlen : b64Alphabet.length ≤ n := by
      have : b64Alphabet.length = 64 := by decide
      omega
    simp only [b64char, List.getD_eq_default _ _ hlen]
    decide

theorem b64char_ne_eq (n : Nat) : b64char n ≠ '=' := by
  by_cases h : n < 64
  · revert h
    revert n
    decide
  · have hlen : b64Alphabet.length ≤ n := by
      have : b64Alphabet.length = 64 := by decide
      omega
    simp only [b64char, List.getD_eq_default _ _ hlen]
    decide

theorem decode64_encode64 :
    ∀ bs : List Nat, (∀ b ∈ bs, b < 256) → decode64 (encode64 bs) = some bs
  | [], _ => by simp [encode64, decode64]
  | [a], h => by
      have ha : a < 256 := h a (by simp)
      simp only [encode64, decode64]
      rw [b64val_b64char (a / 4) (by omega), b64val_b64char (a % 4 * 16) (by omega)]
      rw [if_pos (And.intro trivial trivial)]
      simp only [Option.bind_eq_bind, Option.some_bind]
      rw [if_pos (show a % 4 * 16 % 16 = 0 by omega)]
      have e1 : a / 4 * 4 + a % 4 * 16 / 16 = a := by omega
      rw [e1]
      exact if_pos trivial
  | [a, b], h => by
      have ha : a < 256 := h a (by simp)
      have hb : b < 256 := h b (by simp)
      simp only [encode64, decode64]
      rw [if_neg (b64char_ne_eq (b % 16 * 4))]
      rw [if_pos trivial, if_pos trivial]
      rw [b64val_b64char (a / 4) (by omega),
        b64val_b64char (a % 4 * 16 + b / 16) (by omega),
        b64val_b64char (b % 16 * 4) (by omega)]
      simp only [Option.bind_eq_bind, Option.some_bind]
      rw [if_pos (show b % 16 * 4 % 4 = 0 by omega)]
      have e1 : a / 4 * 4 + (a % 4 * 16 + b / 16) / 16 = a := by omega
      have e2 : (a % 4 * 16 + b / 16) % 16 * 16 + b % 16 * 4 / 4 = b := by omega
      rw [e1, e2]
  | a :: b :: c :: d :: rest, h => by
      have ha : a < 256 := h a (by simp)
      have hb : b < 256 := h b (by simp)
      have hc : c < 256 := h c (by simp)
      have ih := decode64_encode64 (d :: rest) (fun x hx => h x (by simp [hx]))
      simp only [encode64, decode64]
      rw [if_neg (b64char_ne_eq (b % 16 * 4 + c / 64)), if_neg (b64char_ne_eq (c % 64))]
      rw [b64val_b64char (a / 4) (by omega),
        b64val_b64char (a % 4 * 16 + b / 16) (by omega),
        b64val_b64char (b % 16 * 4 + c / 64) (by omega),
        b64val_b64char (c % 64) (by omega)]
      simp only [Option.bind_eq_bind, Option.some_bind]
      rw [ih]
      simp only [Option.some_bind]
      have e1 : a / 4 * 4 + (a % 4 * 16 + b / 16) / 16 = a := by omega
      have e2 : (a % 4 * 16 + b / 16) % 16 * 16 + (b % 16 * 4 + c / 64) / 4 = b := by omega
      have e3 : (b % 16 * 4 + c / 64) % 4 * 64 + c % 64 = c := by omega
      rw [e1, e2, e3]
  | [a, b, c], h => by
      have ha : a < 256 := h a (by simp)
      have hb : b < 256 := h b (by simp)
      have hc : c < 256 := h c (by simp)
      simp only [encode64, decode64]
      rw [if_neg (b64char_ne_eq (b % 16 * 4 + c / 64)), if_neg (b64char_ne_eq (c % 64))]
      rw [b64val_b64char (a / 4) (by omega),
        b64val_b64char (a % 4 * 16 + b / 16) (by omega),
        b64val_b64char (b % 16 * 4 + c / 64) (by omega),
        b64val_b64char (c % 64) (by omega)]
      simp only [Option.bind_eq_bind, Option.some_bind, decode64]
      have e1 : a / 4 * 4 + (a % 4 * 16 + b / 16) / 16 = a := by omega
      have e2 : (a % 4 * 16 + b / 16) % 16 * 16 + (b % 16 * 4 + c / 64) / 4 = b := by omega
      have e3 : (b % 16 * 4 + c / 64) % 4 * 64 + c % 64 = c := by omega
      rw [e1, e2, e3]

theorem encode64_all_b64 : ∀ bs : List Nat, ∀ c ∈ encode64 bs, isB64Char c = true
  | [] => by simp [encode64]
  | [a] => by
      intro c hc
      simp only [encode64, List.mem_cons, List.not_mem_nil, or_false] at hc
      rcases hc with hc | hc | hc | hc <;> subst hc <;>
        first | exact b64char_isB64Char _ | decide
  | [a, b] => by
      intro c hc
      simp only [encode64, List.mem_cons, List.not_mem_nil, or_false] at hc
      rcases hc with hc | hc | hc | hc <;> subst hc <;>
        first | exact b64char_isB64Char _ | decide
  | [a, b, c] => by
      intro x hx
      simp only [encode64, List.mem_cons, List.not_mem_nil, or_false] at hx
      rcases hx with hx | hx | hx | hx <;> subst hx <;> exact b64char_isB64Char _
  | a :: b :: c :: d :: rest => by
      intro x hx
      have ih := encode64_all_b64 (d :: rest)
      simp only [encode64, List.mem_cons] at hx
      rcases hx with hx | hx | hx | hx | hx
      · subst hx; exact b64char_isB64Char _
      · subst hx; exact b64char_isB64Char _
      · subst hx; exact b64char_isB64Char _
      · subst hx; exact b64char_isB64Char _
      · exact ih x hx

/-! ## Validity of values for the codec's canonical encoding

The JS codec throws on keys and strings outside the structured-field
grammar; these predicates delimit the values whose canonical encoding the
grammar (and hence the parser) can represent. -/

/-- A well-formed structured-field key. -/
def isValidKeyB (k : String) : Bool :=
  match k.data with
  | [] => false
  | c :: rest => isKeyStart c && rest.all isKeyChar

/-- A well-formed structured-field string value (no quotes or backslashes;
escape sequences are not modelled). -/
def isValidStringB (s : String) : Bool :=
  s.data.all fun c => !(c = '"') && !(c = '\\')

/-- A well-formed bare value (byte entries must fit in a byte). -/
def isValidBareB : SfValue → Bool
  | .int _ => true
  | .str s => isValidStringB s
  | .bool _ => true
  | .bytes bs => bs.all (· < 256)

/-- Well-formed parameters: valid keys and valid bare values. -/
def isValidParamsB (ps : Params) : Bool :=
  ps.all fun p => isValidKeyB p.1 && isValidBareB p.2

/-- Well-formed inner-list members. -/
def isValidInnerItemB (it : InnerItem) : Bool :=
  isValidBareB it.value && isValidParamsB it.params

theorem isDigit_ne {c : Char} (h : c.isDigit = true) :
    c ≠ '"' ∧ c ≠ ':' ∧ c ≠ '?' ∧ c ≠ '-' ∧ c ≠ ';' ∧ c ≠ ' ' := by
  refine ⟨?_, ?_, ?_, ?_, ?_, ?_⟩ <;> intro he <;> subst he <;> exact absurd h (by decide)

theorem parseStrChars_rt (cs : List Char) (r : List Char)
    (h : ∀ c ∈ cs, (!(c = '"') && !(c = '\\'))  = true) :
    parseStrChars (cs ++ '"' :: r) = some (cs, r) := by
  induction cs with
  | nil => simp [parseStrChars]
  | cons c rest ih =>
      have hc := h c (by simp)
      simp only [Bool.and_eq_true, Bool.not_eq_true', decide_eq_false_iff_not] at hc
      simp only [List.cons_append, parseStrChars, if_neg hc.1, if_neg hc.2]
      have hih := ih (fun x hx => h x (by simp [hx]))
      simp only [List.append_eq] at hih ⊢
      rw [hih]
      rfl

theorem natRepr_data (n : Nat) : (natRepr n).data = natDigits n := rfl

/-- `parseBare` inverts `encodeBare` whenever the following text does not
begin with a digit. -/
theorem parseBare_rt (v : SfValue) (r : List Char) (hv : isValidBareB v = true)
    (hr : ∀ c, r.head? = some c → c.isDigit = false) :
    parseBare ((encodeBare v).data ++ r) = some (v, r) := by
  match v with
  | .str s =>
      have hdata : (encodeBare (.str s)).data ++ r = '"' :: (s.data ++ '"' :: r) := by
        simp [encodeBare, string_data_append]
      rw [hdata]
      simp +decide only [parseBare]
      rw [parseStrChars_rt s.data r (by simpa [isValidBareB, isValidStringB,
        List.all_eq_true] using hv)]
      simp [string_mk_data]
  | .bool b =>
      cases b with
      | false =>
          show parseBare ('?' :: '0' :: r) = some (.bool false, r)
          simp [parseBare]
      | true =>
          show parseBare ('?' :: '1' :: r) = some (.bool true, r)
          simp [parseBare]
  | .bytes bs =>
      have hdata : (encodeBare (.bytes bs)).data ++ r
          = ':' :: (encode64 bs ++ ':' :: r) := by
        simp [encodeBare, string_data_append]
      rw [hdata]
      simp +decide only [parseBare]
      rw [spanP_append isB64Char (encode64 bs) (':' :: r)
        (encode64_all_b64 bs) (by intro c hc; injection hc with hc; subst hc; decide)]
      simp only [expectChar, reduceIte]
      rw [decode64_encode64 bs (by simpa [isValidBareB, List.all_eq_true] using hv)]
      rfl
  | .int n =>
      by_cases hneg : n < 0
      · have hdata : (encodeBare (.int n)).data ++ r
            = '-' :: (natDigits n.natAbs ++ r) := by
          simp only [encodeBare, intRepr, if_pos hneg, string_data_append]
          rfl
        have hemp : (natDigits n.natAbs).isEmpty = false := by
          cases h2 : natDigits n.natAbs with
          | nil => exact absurd h2 (natDigits_ne_nil _)
          | cons a l => rfl
        rw [hdata]
        simp +decide only [parseBare, parseIntCs, parseDigits]
        rw [spanP_append Char.isDigit (natDigits n.natAbs) r
          (natDigits_all_digits n.natAbs) hr]
        simp only [hemp, Bool.false_eq_true, if_false, Option.map_some', Option.some.injEq,
          Prod.mk.injEq, natDigits_roundtrip, SfValue.int.injEq, and_true, if_true]
        omega
      · obtain ⟨d, ds, hd⟩ : ∃ d ds, natDigits n.natAbs = d :: ds := by
          cases h : natDigits n.natAbs with
          | nil => exact absurd h (natDigits_ne_nil n.natAbs)
          | cons d ds => exact ⟨d, ds, rfl⟩
        have hdall := natDigits_all_digits n.natAbs
        have hdd : d.isDigit = true := by rw [hd] at hdall; exact hdall d (by simp)
        have hemp : (natDigits n.natAbs).isEmpty = false := by rw [hd]; rfl
        have hne := isDigit_ne hdd
        have hdata : (encodeBare (.int n)).data ++ r = d :: (ds ++ r) := by
          simp only [encodeBare, intRepr, if_neg hneg]
          rw [natRepr_data, hd]
          rfl
        have hspan : spanP Char.isDigit (d :: (ds ++ r)) = (d :: ds, r) := by
          rw [← List.cons_append]
          exact spanP_append Char.isDigit (d :: ds) r
            (by rw [← hd]; exact natDigits_all_digits n.natAbs) hr
        rw [hdata]
        simp only [parseBare, if_neg hne.1, if_neg hne.2.1, if_neg hne.2.2.1,
          if_pos (Or.inr hdd)]
        simp only [parseIntCs, if_neg hne.2.2.2.1, parseDigits, hspan]
        simp only [List.isEmpty_cons, Bool.false_eq_true, if_false, Option.map_some',
          Option.some.injEq, Prod.mk.injEq, ← hd, natDigits_roundtrip, SfValue.int.injEq,
          and_true, if_true, hemp]
        omega

theorem parseKey_rt (k : String) (r : List Char) (hk : isValidKeyB k = true)
    (hr : ∀ c, r.head? = some c → isKeyChar c = false) :
    parseKey (k.data ++ r) = some (k, r) := by
  match hkd : k.data with
  | [] => rw [isValidKeyB, hkd] at hk; exact absurd hk (by simp)
  | c :: rest =>
      rw [isValidKeyB, hkd] at hk
      simp only [Bool.and_eq_true, List.all_eq_true] at hk
      simp only [List.cons_append, parseKey, if_pos hk.1]
      rw [spanP_append isKeyChar rest r hk.2 hr]
      show some (String.mk (c :: rest), r) = some (k, r)
      rw [← hkd, string_mk_data]

theorem isKeyStart_not_space {c : Char} (h : isKeyStart c = true) :
    (fun x => decide (x = ' ')) c = false := by
  simp only [isKeyStart, Bool.or_eq_true, Bool.and_eq_true, decide_eq_true_eq] at h
  simp only [decide_eq_false_iff_not]
  intro he
  subst he
  rcases h with ⟨h1, _⟩ | h2
  · exact absurd h1 (by decide)
  · exact absurd h2 (by decide)

theorem spanP_cons_neg {p : Char → Bool} {c : Char} (rest : List Char)
    (h : p c = false) : spanP p (c :: rest) = ([], c :: rest) := by
  simp [spanP, h]

/-- The text of an encoded parameter list followed by a digit-free remainder
never begins with a digit. -/
theorem encodeParams_head_not_digit (ps : Params) (r : List Char)
    (hr : ∀ c, r.head? = some c → c.isDigit = false) :
    ∀ c, ((encodeParams ps).data ++ r).head? = some c → c.isDigit = false := by
  intro c hc
  match ps with
  | [] => exact hr c hc
  | (k, v) :: rest =>
      have : ((encodeParams ((k, v) :: rest)).data ++ r).head? = some ';' := by
        show ((";" ++ k ++ "=" ++ encodeBare v ++ encodeParams rest).data ++ r).head?
          = some ';'
        simp [string_data_append]
      rw [this] at hc
      injection hc with hc
      subst hc
      decide

/-- `parseParamsF` inverts `encodeParams` for valid parameters, given one
fuel unit per parameter and a remainder that opens with neither `;` nor a
digit. -/
theorem parseParamsF_rt :
    ∀ (ps : Params) (fuel : Nat) (r : List Char),
      isValidParamsB ps = true →
      ps.length + 1 ≤ fuel →
      (∀ c, r.head? = some c → c ≠ ';' ∧ c.isDigit = false) →
      parseParamsF fuel ((encodeParams ps).data ++ r) = some (ps, r) := by
  intro ps
  induction ps with
  | nil =>
      intro fuel r _ hfuel hr
      match fuel, hfuel with
      | f + 1, _ =>
          show parseParamsF (f + 1) ([] ++ r) = some ([], r)
          rw [List.nil_append]
          match r with
          | [] => rfl
          | c :: rest =>
              have hc := (hr c rfl).1
              simp [parseParamsF, hc]
  | cons p rest ih =>
      intro fuel r hv hfuel hr
      obtain ⟨k, v⟩ := p
      simp only [isValidParamsB, List.all_cons, Bool.and_eq_true] at hv
      obtain ⟨⟨hk, hbv⟩, hvrest⟩ := hv
      match fuel, hfuel with
      | f + 1, hfuel =>
          obtain ⟨kc, krest, hkd⟩ : ∃ kc krest, k.data = kc :: krest := by
            cases h : k.data with
            | nil => rw [isValidKeyB, h] at hk; exact absurd hk (by simp)
            | cons a l => exact ⟨a, l, rfl⟩
          have hks : isKeyStart kc = true := by
            rw [isValidKeyB, hkd] at hk
            simp only [Bool.and_eq_true] at hk
            exact hk.1
          have hdata : (encodeParams ((k, v) :: rest)).data ++ r
              = ';' :: (k.data ++ '=' :: ((encodeBare v).data
                  ++ ((encodeParams rest).data ++ r))) := by
            show ((";" ++ k ++ "=" ++ encodeBare v ++ encodeParams rest).data ++ r) = _
            simp [string_data_append]
          have hsp : spanP (fun x => decide (x = ' '))
              (k.data ++ '=' :: ((encodeBare v).data
                ++ ((encodeParams rest).data ++ r)))
              = ([], k.data ++ '=' :: ((encodeBare v).data
                ++ ((encodeParams rest).data ++ r))) := by
            rw [hkd]
            rw [List.cons_append]
            exact spanP_cons_neg _ (isKeyStart_not_space hks)
          rw [hdata]
          simp +decide only [parseParamsF, if_true]
          rw [hsp]
          simp only []
          rw [parseKey_rt k ('=' :: ((encodeBare v).data ++ ((encodeParams rest).data ++ r)))
            hk (by intro c hc; injection hc with hc; subst hc; decide)]
          simp +decide only [if_true]
          rw [parseBare_rt v ((encodeParams rest).data ++ r) hbv
            (encodeParams_head_not_digit rest r (fun c hc => (hr c hc).2))]
          show Option.map (fun p => ((k, v) :: p.1, p.2))
            (parseParamsF f ((encodeParams rest).data ++ r)) = _
          rw [ih f r (by simpa [isValidParamsB] using hvrest)
            (by simp only [List.length_cons] at hfuel; omega) hr]
          rfl

/-- Recursion-depth budget for parsing an encoded inner list. -/
def itemsFuel (its : List InnerItem) : Nat :=
  its.foldr (fun it a => it.params.length + 2 + a) 1

theorem itemsFuel_pos (its : List InnerItem) : 1 ≤ itemsFuel its := by
  induction its with
  | nil => simp [itemsFuel]
  | cons it rest ih => simp only [itemsFuel, List.foldr_cons] at ih ⊢; omega

/-- The first character of an encoded bare value, with the separator facts
needed to drive the inner-list parser into its item branch. -/
theorem encodeBare_head (v : SfValue) :
    ∃ c cs, (encodeBare v).data = c :: cs ∧ c ≠ ')' ∧ c ≠ ' ' ∧ c ≠ '(' := by
  match v with
  | .str s => exact ⟨'"', (s ++ "\"").data, by simp [encodeBare, string_data_append],
      by decide, by decide, by decide⟩
  | .bool b =>
      cases b with
      | true => exact ⟨'?', ['1'], rfl, by decide, by decide, by decide⟩
      | false => exact ⟨'?', ['0'], rfl, by decide, by decide, by decide⟩
  | .bytes bs => exact ⟨':', (String.mk (encode64 bs) ++ ":").data,
      by simp [encodeBare, string_data_append], by decide, by decide, by decide⟩
  | .int n =>
      by_cases hneg : n < 0
      · refine ⟨'-', natDigits n.natAbs, ?_, by decide, by decide, by decide⟩
        simp only [encodeBare, intRepr, if_pos hneg, string_data_append]
        rfl
      · obtain ⟨d, ds, hd⟩ : ∃ d ds, natDigits n.natAbs = d :: ds := by
          cases h : natDigits n.natAbs with
          | nil => exact absurd h (natDigits_ne_nil n.natAbs)
          | cons d ds => exact ⟨d, ds, rfl⟩
        have hdd : d.isDigit = true := by
          have := natDigits_all_digits n.natAbs
          rw [hd] at this
          exact this d (by simp)
        refine ⟨d, ds, ?_, ?_, ?_, ?_⟩
        · simp only [encodeBare, intRepr, if_neg hneg, natRepr_data, hd]
        · intro he; subst he; exact absurd hdd (by decide)
        · intro he; subst he; exact absurd hdd (by decide)
        · intro he; subst he; exact absurd hdd (by decide)

/-- `parseInnerItemsF` inverts the encoding of an inner list's members (the
text between the parentheses, terminated by `)`). -/
theorem parseInnerItemsF_rt :
    ∀ (its : List InnerItem) (fuel : Nat) (r : List Char),
      its.all isValidInnerItemB = true →
      itemsFuel its ≤ fuel →
      parseInnerItemsF fuel ((joinSep " " (its.map encodeInnerItem)).data ++ ')' :: r)
        = some (its, r) := by
  intro its
  induction its with
  | nil =>
      intro fuel r _ hfuel
      obtain ⟨f, rfl⟩ : ∃ f, fuel = f + 1 := by
        refine ⟨fuel - 1, ?_⟩
        simp only [itemsFuel, List.foldr_nil] at hfuel
        omega
      show parseInnerItemsF (f + 1) ([] ++ ')' :: r) = some ([], r)
      rw [List.nil_append]
      simp [parseInnerItemsF]
  | cons it rest ih =>
      intro fuel r hv hfuel
      simp only [List.all_cons, Bool.and_eq_true] at hv
      obtain ⟨hit, hvrest⟩ := hv
      simp only [isValidInnerItemB, Bool.and_eq_true] at hit
      obtain ⟨hbv, hps⟩ := hit
      simp only [itemsFuel, List.foldr_cons] at hfuel
      obtain ⟨bc, bcs, hbd, hbc1, hbc2, hbc3⟩ := encodeBare_head it.value
      obtain ⟨f, rfl⟩ : ∃ f, fuel = f + 1 := by
        refine ⟨fuel - 1, ?_⟩
        have := itemsFuel_pos rest
        simp only [itemsFuel] at this
        omega
      match rest, hvrest, ih, hfuel with
      | [], _, ih, hfuel =>
          have hdata : (joinSep " " ([it].map encodeInnerItem)).data ++ ')' :: r
              = bc :: (bcs ++ ((encodeParams it.params).data ++ ')' :: r)) := by
            show (encodeInnerItem it).data ++ ')' :: r = _
            simp only [encodeInnerItem, string_data_append, hbd]
            simp
          rw [hdata]
          simp only [parseInnerItemsF, if_neg hbc1, if_neg hbc2]
          rw [show bc :: (bcs ++ ((encodeParams it.params).data ++ ')' :: r))
              = (encodeBare it.value).data ++ ((encodeParams it.params).data ++ ')' :: r)
            by rw [hbd]; rfl]
          rw [parseBare_rt it.value ((encodeParams it.params).data ++ ')' :: r) hbv
            (encodeParams_head_not_digit it.params
              (')' :: r) (by intro c hc; injection hc with hc; subst hc; decide))]
          simp only [Option.some_bind]
          rw [parseParamsF_rt it.params f (')' :: r) hps
            (by simp only [itemsFuel, List.foldr_nil, List.foldr_cons] at hfuel; omega)
            (by intro c hc; injection hc with hc; subst hc; exact ⟨by decide, by decide⟩)]
          simp only [Option.some_bind]
          have hnil := ih f r (by simp)
            (by simp only [itemsFuel, List.foldr_nil, List.foldr_cons] at hfuel ⊢; omega)
          simp only [List.map_nil, joinSep] at hnil
          rw [List.nil_append] at hnil
          rw [hnil]
          rfl
      | r2 :: rs, hvrest, ih, hfuel =>
          have hdata : (joinSep " " (((it :: r2 :: rs)).map encodeInnerItem)).data
              ++ ')' :: r
              = bc :: (bcs ++ ((encodeParams it.params).data
                  ++ ' ' :: ((joinSep " " ((r2 :: rs).map encodeInnerItem)).data
                    ++ ')' :: r))) := by
            show (encodeInnerItem it ++ " "
              ++ joinSep " " ((r2 :: rs).map encodeInnerItem)).data ++ ')' :: r = _
            simp only [encodeInnerItem, string_data_append, hbd]
            simp
          rw [hdata]
          simp only [parseInnerItemsF, if_neg hbc1, if_neg hbc2]
          rw [show bc :: (bcs ++ ((encodeParams it.params).data
                ++ ' ' :: ((joinSep " " ((r2 :: rs).map encodeInnerItem)).data
                  ++ ')' :: r)))
              = (encodeBare it.value).data ++ ((encodeParams it.params).data
                ++ ' ' :: ((joinSep " " ((r2 :: rs).map encodeInnerItem)).data
                  ++ ')' :: r))
            by rw [hbd]; rfl]
          rw [parseBare_rt it.value ((encodeParams it.params).data
              ++ ' ' :: ((joinSep " " ((r2 :: rs).map encodeInnerItem)).data ++ ')' :: r))
            hbv (encodeParams_head_not_digit it.params
              (' ' :: ((joinSep " " ((r2 :: rs).map encodeInnerItem)).data ++ ')' :: r))
              (by intro c hc; injection hc with hc; subst hc; decide))]
          simp only [Option.some_bind]
          rw [parseParamsF_rt it.params f
            (' ' :: ((joinSep " " ((r2 :: rs).map encodeInnerItem)).data ++ ')' :: r))
            hps (by have := itemsFuel_pos (r2 :: rs); simp only [itemsFuel] at this; omega)
            (by intro c hc; injection hc with hc; subst hc; exact ⟨by decide, by decide⟩)]
          simp only [Option.some_bind]
          obtain ⟨f2, rfl⟩ : ∃ f2, f = f2 + 1 := by
            refine ⟨f - 1, ?_⟩
            have := itemsFuel_pos (r2 :: rs)
            simp only [itemsFuel] at this
            omega
          rw [show parseInnerItemsF (f2 + 1)
              (' ' :: ((joinSep " " ((r2 :: rs).map encodeInnerItem)).data ++ ')' :: r))
            = parseInnerItemsF f2
              ((joinSep " " ((r2 :: rs).map encodeInnerItem)).data ++ ')' :: r) by
            simp [parseInnerItemsF]]
          rw [ih f2 r hvrest (by simp only [itemsFuel, List.foldr_cons] at hfuel ⊢; omega)]
          rfl

/-- Validity of a dictionary member value. -/
def isValidDictItemB (it : DictItem) : Bool :=
  (match it.value with
   | .bare v => isValidBareB v
   | .inner l => l.all isValidInnerItemB) && isValidParamsB it.params

/-- Recursion-depth budget for parsing one encoded dictionary member value. -/
def itemFuelD (it : DictItem) : Nat :=
  (match it.value with
   | .bare _ => 1
   | .inner l => itemsFuel l) + it.params.length + 1

/-- `parseMemberValueF` inverts `encodeItem` for valid member values. -/
theorem parseMemberValueF_rt (it : DictItem) (fuel : Nat) (r : List Char)
    (hv : isValidDictItemB it = true) (hfuel : itemFuelD it ≤ fuel)
    (hr : ∀ c, r.head? = some c → c ≠ ';' ∧ c.isDigit = false) :
    parseMemberValueF fuel ((encodeItem it).data ++ r) = some (it, r) := by
  obtain ⟨iv, ps⟩ := it
  simp only [isValidDictItemB, Bool.and_eq_true] at hv
  obtain ⟨hval, hps⟩ := hv
  match iv, hval with
  | .inner its, hval =>
      simp only [itemFuelD] at hfuel
      have hdata : (encodeItem ⟨.inner its, ps⟩).data ++ r
          = '(' :: ((joinSep " " (its.map encodeInnerItem)).data
              ++ ')' :: ((encodeParams ps).data ++ r)) := by
        show ("(" ++ joinSep " " (its.map encodeInnerItem) ++ ")"
          ++ encodeParams ps).data ++ r = _
        simp [string_data_append]
      rw [hdata]
      simp only [parseMemberValueF, reduceIte]
      rw [parseInnerItemsF_rt its fuel ((encodeParams ps).data ++ r) hval (by omega)]
      simp only [Option.some_bind]
      rw [parseParamsF_rt ps fuel r hps (by omega) hr]
      rfl
  | .bare v, hval =>
      simp only [itemFuelD] at hfuel
      obtain ⟨bc, bcs, hbd, _, _, hbc3⟩ := encodeBare_head v
      have hdata : (encodeItem ⟨.bare v, ps⟩).data ++ r
          = bc :: (bcs ++ ((encodeParams ps).data ++ r)) := by
        show (encodeBare v ++ encodeParams ps).data ++ r = _
        simp [string_data_append, hbd]
      rw [hdata]
      simp only [parseMemberValueF, if_neg hbc3]
      rw [show bc :: (bcs ++ ((encodeParams ps).data ++ r))
          = (encodeBare v).data ++ ((encodeParams ps).data ++ r) by rw [hbd]; rfl]
      rw [parseBare_rt v ((encodeParams ps).data ++ r) hval
        (encodeParams_head_not_digit ps r (fun c hc => (hr c hc).2))]
      simp only [Option.some_bind]
      rw [parseParamsF_rt ps fuel r hps (by omega) hr]
      rfl

/-- A single-member dictionary parses back from its encoding. -/
theorem parseMembersF_singleton (label : String) (it : DictItem) (fuel : Nat)
    (hl : isValidKeyB label = true) (hv : isValidDictItemB it = true)
    (hfuel : itemFuelD it ≤ fuel + 1) :
    parseMembersF (fuel + 1) ((encodeDict [(label, it)]).data) = some ([(label, it)], []) := by
  have hdata : (encodeDict [(label, it)]).data
      = label.data ++ '=' :: ((encodeItem it).data ++ []) := by
    show (label ++ "=" ++ encodeItem it).data = _
    simp [string_data_append]
  rw [hdata]
  simp only [parseMembersF]
  rw [parseKey_rt label ('=' :: ((encodeItem it).data ++ [])) hl
    (by intro c hc; injection hc with hc; subst hc; decide)]
  simp +decide only [Option.some_bind]
  rw [parseMemberValueF_rt it (fuel + 1) [] hv hfuel (by intro c hc; simp at hc)]
  rfl

theorem encodeBare_len_pos (v : SfValue) : 1 ≤ (encodeBare v).data.length := by
  match v with
  | .str s =>
      show 1 ≤ (("\"" ++ s ++ "\"").data).length
      simp [string_data_append]
  | .bool b => cases b <;> decide
  | .bytes bs =>
      show 1 ≤ ((":" ++ String.mk (encode64 bs) ++ ":").data).length
      simp [string_data_append]
  | .int n =>
      obtain ⟨d, ds, hd⟩ : ∃ d ds, natDigits n.natAbs = d :: ds := by
        cases h : natDigits n.natAbs with
        | nil => exact absurd h (natDigits_ne_nil n.natAbs)
        | cons d ds => exact ⟨d, ds, rfl⟩
      show 1 ≤ (intRepr n).data.length
      simp only [intRepr]
      split
      · simp [string_data_append]
      · rw [natRepr_data, hd]; simp

theorem encodeParams_len_ge (ps : Params) : ps.length ≤ (encodeParams ps).data.length := by
  induction ps with
  | nil => simp
  | cons p rest ih =>
      show rest.length + 1
        ≤ ((";" ++ p.1 ++ "=" ++ encodeBare p.2 ++ encodeParams rest).data).length
      have := encodeBare_len_pos p.2
      simp only [string_data_append, List.length_append]
      simp only [List.length_cons, List.length_nil] at *
      omega

theorem encodeInnerItem_len_ge (it : InnerItem) :
    1 + it.params.length ≤ (encodeInnerItem it).data.length := by
  show 1 + it.params.length ≤ ((encodeBare it.value ++ encodeParams it.params).data).length
  have h1 := encodeBare_len_pos it.value
  have h2 := encodeParams_len_ge it.params
  simp only [string_data_append, List.length_append]
  omega

theorem itemsFuel_le_len (its : List InnerItem) :
    itemsFuel its ≤ (joinSep " " (its.map encodeInnerItem)).data.length + 2 := by
  match its with
  | [] => simp [itemsFuel, joinSep]
  | [it] =>
      have := encodeInnerItem_len_ge it
      simp only [itemsFuel, List.foldr_cons, List.foldr_nil, List.map_cons, List.map_nil,
        joinSep]
      omega
  | it :: r2 :: rs =>
      have h1 := encodeInnerItem_len_ge it
      have h2 := itemsFuel_le_len (r2 :: rs)
      show it.params.length + 2 + itemsFuel (r2 :: rs)
        ≤ ((encodeInnerItem it ++ " "
            ++ joinSep " " ((r2 :: rs).map encodeInnerItem)).data).length + 2
      simp only [itemsFuel, List.foldr_cons] at h2 ⊢
      simp only [string_data_append, List.length_append]
      simp only [List.length_cons, List.length_nil] at *
      omega

theorem itemFuelD_le_len (it : DictItem) :
    itemFuelD it ≤ (encodeItem it).data.length + 1 := by
  obtain ⟨iv, ps⟩ := it
  match iv with
  | .bare v =>
      have h1 := encodeBare_len_pos v
      have h2 := encodeParams_len_ge ps
      show 1 + ps.length + 1 ≤ ((encodeBare v ++ encodeParams ps).data).length + 1
      simp only [string_data_append, List.length_append]
      omega
  | .inner l =>
      have h1 := itemsFuel_le_len l
      have h2 := encodeParams_len_ge ps
      show itemsFuel l + ps.length + 1
        ≤ (("(" ++ joinSep " " (l.map encodeInnerItem) ++ ")" ++ encodeParams ps).data).length
          + 1
      simp only [string_data_append, List.length_append]
      simp only [List.length_cons, List.length_nil] at *
      omega

/-- `decodeDict` inverts `encodeDict` on single-member dictionaries with a
valid label and member value. -/
theorem decodeDict_encodeDict_singleton (label : String) (it : DictItem)
    (hl : isValidKeyB label = true) (hv : isValidDictItemB it = true) :
    decodeDict (encodeDict [(label, it)]) = .ok [(label, it)] := by
  obtain ⟨f, hf⟩ : ∃ f, (encodeDict [(label, it)]).data.length + 1 = f + 1 :=
    ⟨(encodeDict [(label, it)]).data.length, rfl⟩
  have hfuel : itemFuelD it ≤ f + 1 := by
    have h1 := itemFuelD_le_len it
    have h2 : (encodeItem it).data.length ≤ (encodeDict [(label, it)]).data.length := by
      show (encodeItem it).data.length ≤ ((label ++ "=" ++ encodeItem it).data).length
      simp only [string_data_append, List.length_append]
      omega
    omega
  rw [decodeDict, hf, parseMembersF_singleton label it f hl hv hfuel]

/-! ## The request view (spec §3: host-environment `URL`, `Headers`, method,
optional body) -/

/-- The host environment's parsed URL, as read by the library: `protocol`
keeps its trailing `:` (as in the JS `URL` interface); `query = none` models a
URL without `?`, `query = some q` one with `?q`. -/
structure Url where
  protocol : String
  hostname : String
  port : String
  pathname : String
  query : Option String
  searchParams : List (String × String)
deriving DecidableEq, Repr

/-- JS `URL.search`: empty both when there is no `?` and when the query
behind `?` is empty. -/
def Url.search (u : Url) : String :=
  match u.query with
  | none => ""
  | some q => if q = "" then "" else "?" ++ q

/-- JS `URL.host`: hostname with the port when present. -/
def Url.host (u : Url) : String :=
  u.hostname ++ (if u.port = "" then "" else ":" ++ u.port)

/-- JS `URL.toString()` (fragments and userinfo are not modelled). -/
def Url.toString (u : Url) : String :=
  u.protocol ++ "//" ++ u.host ++ u.pathname
    ++ (match u.query with
        | none => ""
        | some q => "?" ++ q)

/-- The request view: header list, URL, method, optional body bytes. -/
structure Request where
  headers : List (String × String)
  url : Url
  method : String
  body : Option (List Nat)
deriving DecidableEq, Repr

/-- ASCII lowercasing of a character (kernel-reducible `Char.toLower`). -/
def charToLower (c : Char) : Char :=
  if 65 ≤ c.toNat ∧ c.toNat ≤ 90 then Char.ofNat (c.toNat + 32) else c

/-- ASCII lowercasing of a string. -/
def strToLower (s : String) : String := String.mk (s.data.map charToLower)

/-- JS `Headers.get`: case-insensitive lookup of the first matching header. -/
def headersGet (headers : List (String × String)) (name : String) : Option String :=
  (headers.find? fun p => decide (strToLower p.1 = strToLower name)).map (·.2)

/-- JS `URLSearchParams.get`: the first value under the given name. -/
def searchParamsGet (sp : List (String × String)) (name : String) : Option String :=
  (sp.find? fun p => decide (p.1 = name)).map (·.2)

/-! ## Outcomes, component identifiers and JS value semantics -/

/-- The structured error value `{type, message, context}` of the library
(`context` is modelled as its string rendering). -/
structure ErrorV where
  type : String
  message : String
  context : String
deriving DecidableEq, Repr

/-- A caller-supplied component identifier: a plain string, or the object
form `{component, parameters}` used for parameterized components. -/
inductive SigInput where
  | simple (s : String)
  | param (component : String) (parameters : Params)
deriving DecidableEq, Repr

/-- `new Item(input, {})` / `new Item(input.component, input.parameters)`
(source lines 27 and 47). -/
def SigInput.toItem : SigInput → InnerItem
  | .simple s => ⟨.str s, []⟩
  | .param c ps => ⟨.str c, ps⟩

/-- JS string interpolation of an identifier (template literal in the
missing-required-input error): strings verbatim, objects render as
`[object Object]`. -/
def SigInput.jsString : SigInput → String
  | .simple s => s
  | .param _ _ => "[object Object]"

/-- JS object property lookup on a decoded parameter object: with duplicate
keys the later assignment wins. -/
def lookupLast (k : String) : Params → Option SfValue
  | [] => none
  | p :: rest =>
      match lookupLast k rest with
      | some v => some v
      | none => if p.1 = k then some p.2 else none

/-- JS falsiness of an optional decoded value (`!x`): missing, `0`, the
empty string and `false` are falsy; objects are truthy. -/
def jsFalsy : Option SfValue → Bool
  | none => true
  | some (.int n) => decide (n = 0)
  | some (.str s) => decide (s = "")
  | some (.bool b) => !b
  | some (.bytes _) => false

/-- JS string coercion of a decoded value (as applied by `headers.get`,
`searchParams.get` and `+` concatenation). -/
def jsValToString : SfValue → String
  | .str s => s
  | .int n => intRepr n
  | .bool b => if b then "true" else "false"
  | .bytes bs => joinSep "," (bs.map natRepr)

/-- JS `String.prototype.slice(n)` for a nonnegative start index. -/
def jsSliceFrom (s : String) (n : Nat) : String := String.mk (s.data.drop n)

/-- JS `String.prototype.slice(0, -1)` (used on `url.protocol`). -/
def jsDropLast (s : String) : String := String.mk s.data.dropLast

/-! ## Component Resolver (spec §4.1; source lines 61-118 and 429-486) -/

/-- Resolve one component identifier against the request while signing
(the `switch (item.value)` of `createSignatureForRequest`). -/
def resolveComponentSign (it : InnerItem) (req : Request) : Except ErrorV String :=
  let stringOfKey := encodeInnerItem it
  let headerLookup : String → Except ErrorV String := fun s =>
    match headersGet req.headers s with
    | none => .error ⟨"validation", "Missing header: " ++ s,
        "Request is missing header \"" ++ s ++ "\" required in signature input for field "
          ++ stringOfKey⟩
    | some value => .ok value
  match it.value with
  | .str s =>
      if s = "@method" then .ok req.method
      else if s = "@target-uri" then .ok req.url.toString
      else if s = "@authority" then .ok req.url.hostname
      else if s = "@scheme" then .ok (jsDropLast req.url.protocol)
      else if s = "@path" then .ok req.url.pathname
      else if s = "@query" then
        .ok (if 0 < req.url.search.length then req.url.search else "")
      else if s = "@query-param" then
        let name := lookupLast "name" it.params
        if jsFalsy name then
          .error ⟨"validation", "Invalid signature input",
            "Signature input is missing required parameter \"name\" in signature input for field "
              ++ stringOfKey⟩
        else
          let nm := jsValToString (name.getD (.bool false))
          match searchParamsGet req.url.searchParams nm with
          | none => .error ⟨"validation", "Missing query parameter: " ++ nm,
              "Request is missing query parameter \"" ++ nm
                ++ "\" required in signature input for field " ++ stringOfKey⟩
          | some value => .ok value
      else headerLookup s
  | v => headerLookup (jsValToString v)

/-- Resolve one component identifier against the request while verifying
(the `switch (item.value)` of `verifySignatureOfRequest`; it differs from
the signing resolver only in the `@query` arm). -/
def resolveComponentVerify (it : InnerItem) (req : Request) : Except ErrorV String :=
  let stringOfKey := encodeInnerItem it
  let headerLookup : String → Except ErrorV String := fun s =>
    match headersGet req.headers s with
    | none => .error ⟨"validation", "Missing header: " ++ s,
        "Request is missing header \"" ++ s ++ "\" required in signature input for field "
          ++ stringOfKey⟩
    | some value => .ok value
  match it.value with
  | .str s =>
      if s = "@method" then .ok req.method
      else if s = "@target-uri" then .ok req.url.toString
      else if s = "@authority" then .ok req.url.hostname
      else if s = "@scheme" then .ok (jsDropLast req.url.protocol)
      else if s = "@path" then .ok req.url.pathname
      else if s = "@query" then .ok req.url.search
      else if s = "@query-param" then
        let name := lookupLast "name" it.params
        if jsFalsy name then
          .error ⟨"validation", "Invalid signature input",
            "Signature input is missing required parameter \"name\" in signature input for field "
              ++ stringOfKey⟩
        else
          let nm := jsValToString (name.getD (.bool false))
          match searchParamsGet req.url.searchParams nm with
          | none => .error ⟨"validation", "Missing query parameter: " ++ nm,
              "Request is missing query parameter \"" ++ nm
                ++ "\" required in signature input for field " ++ stringOfKey⟩
          | some value => .ok value
      else headerLookup s
  | v => headerLookup (jsValToString v)

/-! ## Signing Orchestrator (spec §4.3; source lines 19-174)

The `Result.fromThrowable` wrappers around the codec never fire in the
model because the modelled encoders are total; the sign callback is a pure
function returning the library's `Result` (`Except`). -/

/-- The output record `{signatureInput, signature, signatureBase}`. -/
structure SignOutput where
  signatureInput : String
  signature : String
  signatureBase : String
deriving DecidableEq, Repr

/-- Assemble the signature base from the component pairs and the
`@signature-params` trailer: one `<key>: <value>` line per pair, joined by
single newlines (source lines 120-124 and 489-493). -/
def assembleBase (pairs : List (String × String)) (trailer : String) : String :=
  joinSep "\n" ((pairs ++ [(encodeInnerItem ⟨.str "@signature-params", []⟩, trailer)]).map
    fun p => p.1 ++ ": " ++ p.2)

/-- The signature-base pair loop of `createSignatureForRequest` (lines
44-119): canonical key and resolved value per identifier, fail-fast. -/
def buildPairsSign : List SigInput → Request → Except ErrorV (List (String × String))
  | [], _ => .ok []
  | input :: rest, req =>
      let item := input.toItem
      match resolveComponentSign item req with
      | .error e => .error e
      | .ok v =>
          match buildPairsSign rest req with
          | .error e => .error e
          | .ok tail => .ok ((encodeInnerItem item, v) :: tail)

/-- `createSignatureForRequest` (source lines 19-174). -/
def createSignatureForRequest (signatureInputs : List SigInput) (signatureLabel : String)
    (additionalParams : Params) (req : Request)
    (sign : String → Params → Except ErrorV (List Nat)) : Except ErrorV SignOutput :=
  let signatureInputValue := signatureInputs.map SigInput.toItem
  let signatureInputDictItem : DictItem := ⟨.inner signatureInputValue, additionalParams⟩
  let stringOfSignatureInputDictionary :=
    encodeDict [(signatureLabel, signatureInputDictItem)]
  match buildPairsSign signatureInputs req with
  | .error e => .error e
  | .ok pairs =>
      let trailer := jsSliceFrom stringOfSignatureInputDictionary (signatureLabel.length + 1)
      let signatureBase := assembleBase pairs trailer
      match sign signatureBase additionalParams with
      | .error e => .error e
      | .ok sigBytes =>
          let signature := encodeDict [(signatureLabel, ⟨.bare (.bytes sigBytes), []⟩)]
          .ok ⟨stringOfSignatureInputDictionary, signature, signatureBase⟩

/-! ## Verification Engine (spec §4.4; source lines 195-511) -/

/-- Lookup of a decoded dictionary member under a label (JS object access;
with duplicate labels the later assignment wins). -/
def dictGet (d : Dict) (k : String) : Option DictItem :=
  (d.reverse.find? fun m => decide (m.1 = k)).map (·.2)

/-- The trailer of the rebuilt signature base:
`stringOfSignatureInputDictionary.split('=').slice(1).join('=')` (source
line 490), i.e. everything after the first `=` of the raw header text. -/
def signatureParamsValue (s : String) : String :=
  match s.data.dropWhile (fun c => !(c = '=')) with
  | [] => ""
  | _ :: rest => String.mk rest

/-- The required-inputs matching of source lines 281-284: a simple
identifier matches by strict value equality; a parameterized identifier
matches when the component name is equal and every declared parameter is
present with a strictly-equal value on the entry. -/
def findRequiredInput (input : SigInput) (signatureInput : List InnerItem) :
    Option InnerItem :=
  match input with
  | .simple s => signatureInput.find? fun item => decide (item.value = .str s)
  | .param c ps =>
      signatureInput.find? fun item =>
        decide (item.value = .str c)
          && ps.all fun p => decide (lookupLast p.1 item.params = some p.2)

/-- The created-parameter and freshness stage (source lines 306-329):
`created` must be truthy and a number, and `now - created` must not exceed
`maxAge`. -/
def freshnessCheck (signatureInputParams : Params) (maxAge : Int)
    (nowInSeconds : Int) : Except ErrorV Unit :=
  let paramCreated := lookupLast "created" signatureInputParams
  if jsFalsy paramCreated then
    .error ⟨"validation", "Invalid signature",
      "Missing required parameter \"created\" in signature input"⟩
  else
    match paramCreated with
    | some (.int created) =>
        if maxAge < nowInSeconds - created then
          .error ⟨"validation", "Signature expired", "Signature expired"⟩
        else .ok ()
    | _ => .error ⟨"validation", "Invalid signature",
        "Invalid parameter \"created\" in signature input"⟩

/-- The optional content-digest binding stage (source lines 331-410);
`digest` is the platform crypto primitive. -/
def digestCheck (signatureInput : List InnerItem) (req : Request)
    (digest : String → List Nat → List Nat) : Except ErrorV Unit :=
  match signatureInput.find? (fun item => decide (item.value = .str "content-digest")) with
  | none => .ok ()
  | some _ =>
      match headersGet req.headers "content-digest" with
      | none => .error ⟨"validation", "Invalid signature",
          "Missing required header \"content-digest\""⟩
      | some headerValueForContentDigest =>
          match decodeDict headerValueForContentDigest with
          | .error e => .error ⟨"validation",
              "Invalid value for header \"content-digest\"", e⟩
          | .ok dictionaryAsObject =>
              let providedDigestAlgorithms := dictionaryAsObject.map (·.1)
              let allowedDigestAlgorithms := ["sha-256", "sha-512"]
              if !(providedDigestAlgorithms.any fun a => allowedDigestAlgorithms.contains a)
              then
                .error ⟨"validation",
                  "Unsupported content-digest algorithm: "
                    ++ joinSep ", " providedDigestAlgorithms,
                  "Unsupported content-digest algorithm: "
                    ++ joinSep ", " providedDigestAlgorithms⟩
              else
                match dictionaryAsObject.find?
                    (fun m => allowedDigestAlgorithms.contains m.1) with
                | none =>
                    .error ⟨"validation",
                      "Unsupported content-digest algorithm: "
                        ++ joinSep ", " providedDigestAlgorithms,
                      "Unsupported content-digest algorithm: "
                        ++ joinSep ", " providedDigestAlgorithms⟩
                | some m =>
                    match m.2.value with
                    | .bare (.bytes providedDigest) =>
                        let calculatedDigest := digest m.1 (req.body.getD [])
                        if providedDigest ≠ calculatedDigest then
                          .error ⟨"validation",
                            "Digest mismatch for algorithm " ++ m.1 ++ ". Expected "
                              ++ String.mk (encode64 providedDigest) ++ ", got "
                              ++ String.mk (encode64 calculatedDigest),
                            "Digest mismatch for algorithm " ++ m.1 ++ ". Expected "
                              ++ String.mk (encode64 providedDigest) ++ ", got "
                              ++ String.mk (encode64 calculatedDigest)⟩
                        else .ok ()
                    | _ =>
                        .error ⟨"validation",
                          "Invalid digest for algorithm " ++ m.1,
                          "Invalid digest for algorithm " ++ m.1⟩

/-- The signature-base pair loop of `verifySignatureOfRequest` (lines
413-487), over the parsed component list. -/
def buildPairsVerify : List InnerItem → Request → Except ErrorV (List (String × String))
  | [], _ => .ok []
  | item :: rest, req =>
      match resolveComponentVerify item req with
      | .error e => .error e
      | .ok v =>
          match buildPairsVerify rest req with
          | .error e => .error e
          | .ok tail => .ok ((encodeInnerItem item, v) :: tail)

/-- `verifySignatureOfRequest` (source lines 195-511); `nowInSeconds` is
the impure `Date.now() / 1000` and `digest` the platform crypto primitive,
both passed explicitly. -/
def verifySignatureOfRequest
    (stringOfSignatureInputDictionary stringOfSignatureDictionary signatureLabel : String)
    (requiredInputs : List SigInput) (requiredParams : List String)
    (maxAge : Int) (req : Request) (nowInSeconds : Int)
    (digest : String → List Nat → List Nat)
    (verify : String → Params → List Nat → Except ErrorV Bool) : Except ErrorV Bool :=
  match decodeDict stringOfSignatureInputDictionary with
  | .error e => .error ⟨"validation", "Invalid signature input", e⟩
  | .ok signatureInputDict =>
  match dictGet signatureInputDict signatureLabel with
  | none => .error ⟨"validation", "Invalid signature input",
      "Signature Input is not a dictionary or does not contain \"" ++ signatureLabel
        ++ "\" field"⟩
  | some signatureInputDictItem =>
  match signatureInputDictItem.value with
  | .bare _ => .error ⟨"validation", "Invalid signature input",
      "Invalid signature input for \"" ++ signatureLabel ++ "\""⟩
  | .inner signatureInput =>
  if signatureInput.length < 1 then
    .error ⟨"validation", "Invalid signature input",
      "Invalid signature input for \"" ++ signatureLabel ++ "\""⟩
  else if !(signatureInput.all fun item =>
      match item.value with
      | .str _ => true
      | _ => false) then
    .error ⟨"validation", "Invalid signature input", "Invalid signature input"⟩
  else
  match decodeDict stringOfSignatureDictionary with
  | .error e => .error ⟨"validation", "Invalid signature", e⟩
  | .ok signatureDict =>
  match dictGet signatureDict signatureLabel with
  | none => .error ⟨"validation", "Invalid signature",
      "Signature is not a dictionary or does not contain \"" ++ signatureLabel
        ++ "\" field"⟩
  | some signatureDictValue =>
  match signatureDictValue.value with
  | .inner _ => .error ⟨"validation", "Invalid signature", "Invalid signature"⟩
  | .bare bv =>
  match bv with
  | .bytes providedSignature =>
    (match requiredInputs.find?
        (fun input => (findRequiredInput input signatureInput).isNone) with
    | some input => .error ⟨"validation", "Invalid signature",
        "Missing required input field \"" ++ input.jsString ++ "\" in signature input"⟩
    | none =>
    match requiredParams.find?
        (fun rp => (lookupLast rp signatureInputDictItem.params).isNone) with
    | some requiredParam => .error ⟨"validation", "Invalid signature",
        "Missing required parameter \"" ++ requiredParam ++ "\" in signature input"⟩
    | none =>
    match freshnessCheck signatureInputDictItem.params maxAge nowInSeconds with
    | .error e => .error e
    | .ok _ =>
    match digestCheck signatureInput req digest with
    | .error e => .error e
    | .ok _ =>
    match buildPairsVerify signatureInput req with
    | .error e => .error e
    | .ok pairs =>
        let signatureBase := assembleBase pairs
          (signatureParamsValue stringOfSignatureInputDictionary)
        verify signatureBase signatureInputDictItem.params providedSignature)
  | _ => .error ⟨"validation", "Invalid signature", "Invalid signature"⟩

/-! ## Relating the two entry points -/

/-- The ternary in the signing resolver's `@query` arm is the identity:
`url.search.length > 0 ? url.search : ''` always equals `url.search`. -/
theorem queryTernary_id (u : Url) :
    (if 0 < u.search.length then u.search else "") = u.search := by
  by_cases h : 0 < u.search.length
  · simp [h]
  · have h0 : u.search.data.length = 0 := by
      have : u.search.length = u.search.data.length := rfl
      omega
    have : u.search = "" := by
      apply string_eq_of_data
      cases hd : u.search.data with
      | nil => rfl
      | cons a l => rw [hd] at h0; simp at h0
    simp [this]

/-- The verification resolver agrees with the signing resolver on every
component (their switches differ only in the `@query` ternary). -/
theorem resolveComponentVerify_eq_sign (it : InnerItem) (req : Request) :
    resolveComponentVerify it req = resolveComponentSign it req := by
  simp only [resolveComponentVerify, resolveComponentSign, queryTernary_id]

/-- On the component items built from caller identifiers, the verification
pair loop computes exactly the signing pair loop. -/
theorem buildPairsVerify_map (L : List SigInput) (req : Request) :
    buildPairsVerify (L.map SigInput.toItem) req = buildPairsSign L req := by
  induction L with
  | nil => rfl
  | cons input rest ih =>
      simp only [List.map_cons, buildPairsVerify, buildPairsSign,
        resolveComponentVerify_eq_sign, ih]

/-! ## Lookup lemmas for JS object semantics -/

theorem lookupLast_eq_none {k : String} {ps : Params}
    (h : k ∉ ps.map Prod.fst) : lookupLast k ps = none := by
  induction ps with
  | nil => rfl
  | cons p rest ih =>
      simp only [List.map_cons, List.mem_cons] at h
      push_neg at h
      simp only [lookupLast, ih h.2]
      rw [if_neg (by intro he; exact h.1 he.symm)]

theorem lookupLast_isSome_of_mem {k : String} {ps : Params}
    (h : k ∈ ps.map Prod.fst) : (lookupLast k ps).isSome = true := by
  induction ps with
  | nil => simp at h
  | cons p rest ih =>
      simp only [List.map_cons, List.mem_cons] at h
      simp only [lookupLast]
      match h2 : lookupLast k rest with
      | some v => simp
      | none =>
          rcases h with h | h
          · rw [if_pos h.symm]; simp
          · have := ih h
            rw [h2] at this
            simp at this

theorem lookupLast_of_nodup {k : String} {v : SfValue} {ps : Params}
    (hnd : (ps.map Prod.fst).Nodup) (hmem : (k, v) ∈ ps) :
    lookupLast k ps = some v := by
  induction ps with
  | nil => simp at hmem
  | cons p rest ih =>
      simp only [List.map_cons, List.nodup_cons] at hnd
      simp only [List.mem_cons] at hmem
      rcases hmem with hmem | hmem
      · subst hmem
        simp only [lookupLast]
        rw [lookupLast_eq_none hnd.1]
        simp
      · have hk : k ∈ rest.map Prod.fst :=
          List.mem_map.2 ⟨(k, v), hmem, rfl⟩
        simp only [lookupLast, ih hnd.2 hmem]

/-! ## Characterizing a successful signing run -/

theorem createSignatureForRequest_ok {L : List SigInput} {label : String} {P : Params}
    {req : Request} {signFn : String → Params → Except ErrorV (List Nat)}
    {out : SignOutput}
    (h : createSignatureForRequest L label P req signFn = .ok out) :
    ∃ pairs sigBytes,
      buildPairsSign L req = .ok pairs ∧
      signFn (assembleBase pairs
        (jsSliceFrom (encodeDict [(label, ⟨.inner (L.map SigInput.toItem), P⟩)])
          (label.length + 1))) P = .ok sigBytes ∧
      out = ⟨encodeDict [(label, ⟨.inner (L.map SigInput.toItem), P⟩)],
             encodeDict [(label, ⟨.bare (.bytes sigBytes), []⟩)],
             assembleBase pairs
               (jsSliceFrom (encodeDict [(label, ⟨.inner (L.map SigInput.toItem), P⟩)])
                 (label.length + 1))⟩ := by
  simp only [createSignatureForRequest] at h
  match h1 : buildPairsSign L req with
  | .error e => rw [h1] at h; exact absurd h (by simp)
  | .ok pairs =>
      rw [h1] at h
      simp only at h
      match h2 : signFn (assembleBase pairs
          (jsSliceFrom (encodeDict [(label, ⟨.inner (L.map SigInput.toItem), P⟩)])
            (label.length + 1))) P with
      | .error e => rw [h2] at h; exact absurd h (by simp)
      | .ok sigBytes =>
          rw [h2] at h
          simp only [Except.ok.injEq] at h
          exact ⟨pairs, sigBytes, rfl, h2, h.symm⟩

/-! ## The two trailer computations on canonical header text -/

theorem jsSliceFrom_label (label rest : String) :
    jsSliceFrom (label ++ "=" ++ rest) (label.length + 1) = rest := by
  simp only [jsSliceFrom, string_data_append]
  have hl : label.length + 1 = (label.data ++ ['=']).length := by
    show label.data.length + 1 = _
    simp
  rw [hl]
  rw [show label.data ++ ['='] ++ rest.data
      = (label.data ++ ['=']) ++ rest.data from rfl]
  rw [List.drop_left]

theorem dropWhile_all_append {p : Char → Bool} :
    ∀ (l r : List Char), (∀ c ∈ l, p c = true) → (l ++ r).dropWhile p = r.dropWhile p := by
  intro l r h
  induction l with
  | nil => rfl
  | cons c rest ih =>
      have hc := h c (by simp)
      simp only [List.cons_append, List.dropWhile_cons, hc, if_pos]
      exact ih (fun x hx => h x (by simp [hx]))

theorem isKeyChar_ne_eq {c : Char} (h : isKeyChar c = true) : c ≠ '=' := by
  intro he; subst he; exact absurd h (by decide)

theorem isValidKeyB_no_eq {label : String} (h : isValidKeyB label = true) :
    ∀ c ∈ label.data, c ≠ '=' := by
  intro c hc
  match hd : label.data with
  | [] => rw [hd] at hc; simp at hc
  | a :: rest =>
      rw [isValidKeyB, hd] at h
      simp only [Bool.and_eq_true, List.all_eq_true] at h
      rw [hd] at hc
      simp only [List.mem_cons] at hc
      rcases hc with hc | hc
      · subst hc
        intro he
        rw [he] at h
        exact absurd h.1 (by decide)
      · exact isKeyChar_ne_eq (h.2 c hc)

/-- On header text of the exact shape `label=rest` with a well-formed label,
the verifier's trailer (`split('=').slice(1).join('=')`) recovers `rest`. -/
theorem signatureParamsValue_label (label rest : String)
    (h : ∀ c ∈ label.data, c ≠ '=') :
    signatureParamsValue (label ++ "=" ++ rest) = rest := by
  simp only [signatureParamsValue, string_data_append]
  rw [List.append_assoc]
  rw [dropWhile_all_append label.data ("=".data ++ rest.data)
    (by intro c hc; simp [h c hc])]
  show (match ('=' :: rest.data).dropWhile (fun c => !(c = '=')) with
    | [] => ""
    | _ :: rest => String.mk rest) = rest
  rw [List.dropWhile_cons]
  rw [if_neg (by simp)]

/-! ## Claims -/

/-- Request of the end-to-end scenario: `POST https://example.com/foo?bar=baz`
with header `content-type: application/json`. -/
def reqScenario : Request :=
  { headers := [("content-type", "application/json")]
    url := { protocol := "https:", hostname := "example.com", port := "",
             pathname := "/foo", query := some "bar=baz",
             searchParams := [("bar", "baz")] }
    method := "POST"
    body := none }

/-- A request whose URL carries the non-default port 8443:
`GET https://example.com:8443/`. -/
def reqPort8443 : Request :=
  { headers := []
    url := { protocol := "https:", hostname := "example.com", port := "8443",
             pathname := "/", query := none, searchParams := [] }
    method := "GET"
    body := none }

/-- **C2**: signing `POST https://example.com/foo?bar=baz` with header
`content-type: application/json`, identifiers
`['@method','@target-uri','content-type']` and parameters
`{keyid:'k', created:T}` produces exactly the four base lines
`"@method": POST`, `"@target-uri": https://example.com/foo?bar=baz`,
`"content-type": application/json` and
`"@signature-params": ("@method" "@target-uri" "content-type");keyid="k";created=T`,
joined by single newlines with no trailing newline. -/
theorem signatureBase_end_to_end_scenario (T : Int) :
    (createSignatureForRequest
      [.simple "@method", .simple "@target-uri", .simple "content-type"] "sig1"
      [("keyid", .str "k"), ("created", .int T)] reqScenario
      (fun _ _ => .ok [])).map (·.signatureBase)
    = .ok (joinSep "\n"
        ["\"@method\": POST",
         "\"@target-uri\": https://example.com/foo?bar=baz",
         "\"content-type\": application/json",
         "\"@signature-params\": (\"@method\" \"@target-uri\" \"content-type\");keyid=\"k\";created="
           ++ intRepr T]) := by
  have hpairs : buildPairsSign
      [.simple "@method", .simple "@target-uri", .simple "content-type"] reqScenario
      = .ok [("\"@method\"", "POST"),
             ("\"@target-uri\"", "https://example.com/foo?bar=baz"),
             ("\"content-type\"", "application/json")] := rfl
  simp only [createSignatureForRequest, hpairs]
  rw [show encodeDict [("sig1",
      (⟨.inner ([SigInput.simple "@method", .simple "@target-uri",
        .simple "content-type"].map SigInput.toItem),
        [("keyid", .str "k"), ("created", .int T)]⟩ : DictItem))]
    = "sig1" ++ "=" ++ encodeItem
        ⟨.inner ([SigInput.simple "@method", .simple "@target-uri",
          .simple "content-type"].map SigInput.toItem),
          [("keyid", .str "k"), ("created", .int T)]⟩ from rfl]
  rw [jsSliceFrom_label]
  show Except.ok (assembleBase
      [("\"@method\"", "POST"), ("\"@target-uri\"", "https://example.com/foo?bar=baz"),
        ("\"content-type\"", "application/json")]
      (encodeItem
        ⟨.inner (List.map SigInput.toItem
            [SigInput.simple "@method", SigInput.simple "@target-uri",
              SigInput.simple "content-type"]),
          [("keyid", SfValue.str "k"), ("created", SfValue.int T)]⟩)) = _
  refine congrArg Except.ok ?_
  show assembleBase
      [("\"@method\"", "POST"), ("\"@target-uri\"", "https://example.com/foo?bar=baz"),
        ("\"content-type\"", "application/json")]
      (encodeItem
        ⟨.inner (List.map SigInput.toItem
            [SigInput.simple "@method", SigInput.simple "@target-uri",
              SigInput.simple "content-type"]),
          [("keyid", SfValue.str "k"), ("created", SfValue.int T)]⟩) = _
  simp only [assembleBase, joinSep, encodeItem, encodeItemValue, encodeParams,
    encodeInnerItem, encodeBare, List.map, List.foldr, SigInput.toItem,
    List.cons_append, List.nil_append, String.append_empty, ← String.append_assoc,
    String.reduceAppend]

/-- **C2 witness**: the end-to-end scenario instantiated at a concrete
creation time. -/
theorem signatureBase_end_to_end_scenario_witness :
    (createSignatureForRequest
      [.simple "@method", .simple "@target-uri", .simple "content-type"] "sig1"
      [("keyid", .str "k"), ("created", .int 1700000000)] reqScenario
      (fun _ _ => .ok [])).map (·.signatureBase)
    = .ok (joinSep "\n"
        ["\"@method\": POST",
         "\"@target-uri\": https://example.com/foo?bar=baz",
         "\"content-type\": application/json",
         "\"@signature-params\": (\"@method\" \"@target-uri\" \"content-type\");keyid=\"k\";created="
           ++ intRepr 1700000000]) :=
  signatureBase_end_to_end_scenario 1700000000

/-- **C5 counterexample**: for `https://example.com:8443/` the `@authority`
component resolves to `example.com` — the non-default port is dropped — in
both the signing and the verification resolver, contradicting the claimed
value `example.com:8443`. -/
theorem authority_drops_port_counterexample :
    resolveComponentSign ⟨.str "@authority", []⟩ reqPort8443 = .ok "example.com" ∧
    resolveComponentVerify ⟨.str "@authority", []⟩ reqPort8443 = .ok "example.com" ∧
    resolveComponentSign ⟨.str "@authority", []⟩ reqPort8443 ≠ .ok "example.com:8443" := by
  refine ⟨rfl, rfl, fun hc => ?_⟩
  have h1 : Except.ok (ε := ErrorV) "example.com" = Except.ok "example.com:8443" := hc
  exact absurd (Except.ok.inj h1) (by decide)

/-- **C5 amended**: for every request, `@authority` resolves to
`url.hostname` — the host *without* any port, even a non-default one — in
both signing and verification. -/
theorem authority_resolves_to_hostname (it : InnerItem) (req : Request)
    (h : it.value = .str "@authority") :
    resolveComponentSign it req = .ok req.url.hostname ∧
    resolveComponentVerify it req = .ok req.url.hostname := by
  obtain ⟨v, ps⟩ := it
  simp only at h
  subst h
  constructor <;>
    simp +decide only [resolveComponentSign, resolveComponentVerify, if_true, if_false]

/-- **C5 amended witness**: the amended statement at the port-8443 request. -/
theorem authority_resolves_to_hostname_witness :
    resolveComponentSign ⟨.str "@authority", []⟩ reqPort8443
      = .ok reqPort8443.url.hostname ∧
    resolveComponentVerify ⟨.str "@authority", []⟩ reqPort8443
      = .ok reqPort8443.url.hostname :=
  authority_resolves_to_hostname ⟨.str "@authority", []⟩ reqPort8443 rfl

/-- **C10**: the signing and verification resolvers agree on `@query` (and
every other component), and `@query` resolves to the empty string both when
the URL has no `?` at all and when `?` is followed by an empty query, so the
`"@query": ` base line is identical in the two cases. -/
theorem query_resolution_agrees_and_collapses :
    (∀ (it : InnerItem) (req : Request),
      resolveComponentSign it req = resolveComponentVerify it req) ∧
    (∀ req : Request, req.url.query = none ∨ req.url.query = some "" →
      resolveComponentSign ⟨.str "@query", []⟩ req = .ok ""
        ∧ resolveComponentVerify ⟨.str "@query", []⟩ req = .ok ""
        ∧ buildPairsSign [.simple "@query"] req = .ok [("\"@query\"", "")]) := by
  constructor
  · intro it req
    exact (resolveComponentVerify_eq_sign it req).symm
  · intro req h
    have hsearch : req.url.search = "" := by
      rcases h with h | h <;> simp [Url.search, h]
    refine ⟨?_, ?_, ?_⟩
    · simp +decide only [resolveComponentSign, hsearch, if_true, if_false]
    · simp +decide only [resolveComponentVerify, hsearch, if_true, if_false]
    · simp only [buildPairsSign, SigInput.toItem]
      simp +decide only [resolveComponentSign, hsearch, if_true, if_false]
      rfl

/-- **C10 witness**: the query-collapse at a concrete request without `?`. -/
theorem query_resolution_agrees_and_collapses_witness :
    resolveComponentSign ⟨.str "@query", []⟩ reqPort8443 = .ok ""
      ∧ resolveComponentVerify ⟨.str "@query", []⟩ reqPort8443 = .ok ""
      ∧ buildPairsSign [.simple "@query"] reqPort8443 = .ok [("\"@query\"", "")] :=
  query_resolution_agrees_and_collapses.2 reqPort8443 (Or.inl rfl)

/-- **C9**: a parsed signature input whose `created` parameter is present
and integer-valued but equal to `0` is rejected by the freshness stage with
the missing-`created` error (`!paramCreated` is a falsiness test, and `0`
is falsy), both at the stage itself and through a full verification run. -/
theorem created_zero_rejected_as_missing :
    lookupLast "created" [("keyid", .str "k"), ("created", .int 0)]
      = some (.int 0) ∧
    freshnessCheck [("keyid", .str "k"), ("created", .int 0)] 300 1000
      = .error ⟨"validation", "Invalid signature",
          "Missing required parameter \"created\" in signature input"⟩ ∧
    verifySignatureOfRequest
      "sig1=(\"@method\");keyid=\"k\";created=0" "sig1=:AQID:" "sig1"
      [.simple "@method"] ["keyid", "created"] 300 reqScenario 1000
      (fun _ _ => []) (fun _ _ _ => .ok true)
      = .error ⟨"validation", "Invalid signature",
          "Missing required parameter \"created\" in signature input"⟩ := by
  refine ⟨rfl, rfl, rfl⟩

/-- **C6**: with the `created` parameter present and truthy-integer, the
freshness stage fails with `Signature expired` exactly when
`now - created > maxAge`, succeeds otherwise (no extra tolerance), and never
rejects a `created` in the future when `maxAge ≥ 0`; concretely, a full
verification with `created = now - 301` and `maxAge = 300` fails with
context `Signature expired` while `created = now - 299` verifies. -/
theorem freshness_window_exact (ps : Params) (maxAge now c : Int)
    (hc : lookupLast "created" ps = some (.int c)) (h0 : c ≠ 0) :
    (freshnessCheck ps maxAge now
        = .error ⟨"validation", "Signature expired", "Signature expired"⟩
      ↔ maxAge < now - c) ∧
    (¬ maxAge < now - c → freshnessCheck ps maxAge now = .ok ()) ∧
    (0 ≤ maxAge → now ≤ c → freshnessCheck ps maxAge now = .ok ()) ∧
    verifySignatureOfRequest "sig1=(\"@method\");created=99699" "sig1=:AQID:"
      "sig1" [] [] 300 reqPort8443 100000 (fun _ _ => [])
      (fun _ _ _ => .ok true)
      = .error ⟨"validation", "Signature expired", "Signature expired"⟩ ∧
    verifySignatureOfRequest "sig1=(\"@method\");created=99701" "sig1=:AQID:"
      "sig1" [] [] 300 reqPort8443 100000 (fun _ _ => [])
      (fun _ _ _ => .ok true)
      = .ok true := by
  have hfalsy : jsFalsy (some (.int c)) = false := by simp [jsFalsy, h0]
  have hred : freshnessCheck ps maxAge now
      = if maxAge < now - c then
          Except.error ⟨"validation", "Signature expired", "Signature expired"⟩
        else Except.ok () := by
    simp only [freshnessCheck, hc, hfalsy, Bool.false_eq_true, if_false]
  refine ⟨?_, ?_, ?_, rfl, rfl⟩
  · rw [hred]
    constructor
    · intro hE
      by_contra hlt
      rw [if_neg hlt] at hE
      exact Except.noConfusion hE
    · intro hlt
      rw [if_pos hlt]
  · intro hnlt
    rw [hred, if_neg hnlt]
  · intro hma hle
    rw [hred, if_neg (by omega)]

/-- **C6 witness**: the freshness window at `created = 40`, `now = 100`,
`maxAge = 300`. -/
theorem freshness_window_exact_witness :
    ((freshnessCheck [("created", SfValue.int 40)] 300 100
        = .error ⟨"validation", "Signature expired", "Signature expired"⟩
      ↔ (300 : Int) < 100 - 40) ∧
    (¬ (300 : Int) < 100 - 40 →
      freshnessCheck [("created", SfValue.int 40)] 300 100 = .ok ()) ∧
    ((0 : Int) ≤ 300 → (100 : Int) ≤ 40 →
      freshnessCheck [("created", SfValue.int 40)] 300 100 = .ok ()) ∧
    verifySignatureOfRequest "sig1=(\"@method\");created=99699" "sig1=:AQID:"
      "sig1" [] [] 300 reqPort8443 100000 (fun _ _ => [])
      (fun _ _ _ => .ok true)
      = .error ⟨"validation", "Signature expired", "Signature expired"⟩ ∧
    verifySignatureOfRequest "sig1=(\"@method\");created=99701" "sig1=:AQID:"
      "sig1" [] [] 300 reqPort8443 100000 (fun _ _ => [])
      (fun _ _ _ => .ok true)
      = .ok true) :=
  freshness_window_exact [("created", SfValue.int 40)] 300 100 40 rfl (by decide)

/-- **C8 counterexample**: a signature input without `created` produces the
*identical* error value whether the missing parameter is reported by the
required-params stage (`requiredParams = ["created"]`) or by the freshness
stage (`requiredParams = []`): the two failures are not distinguishable by
the caller, contradicting "distinct". -/
theorem requiredParams_error_indistinguishable :
    verifySignatureOfRequest "sig1=(\"@method\");keyid=\"k\"" "sig1=:AQID:"
      "sig1" [.simple "@method"] ["created"] 300 reqScenario 1000
      (fun _ _ => []) (fun _ _ _ => .ok true)
      = .error ⟨"validation", "Invalid signature",
          "Missing required parameter \"created\" in signature input"⟩ ∧
    verifySignatureOfRequest "sig1=(\"@method\");keyid=\"k\"" "sig1=:AQID:"
      "sig1" [.simple "@method"] [] 300 reqScenario 1000
      (fun _ _ => []) (fun _ _ _ => .ok true)
      = .error ⟨"validation", "Invalid signature",
          "Missing required parameter \"created\" in signature input"⟩ :=
  ⟨rfl, rfl⟩

/-- **C8 amended**: the required-params check does fire before the freshness
check — with `requiredParams = ["zzz", "created"]` on a `created`-less input
the reported parameter is `zzz`, which only the required-params stage can
name — but its missing-`created` error is byte-for-byte the error the
freshness stage raises for the same input, so the stages are not
caller-distinguishable. -/
theorem requiredParams_fire_first_same_error :
    verifySignatureOfRequest "sig1=(\"@method\");keyid=\"k\"" "sig1=:AQID:"
      "sig1" [.simple "@method"] ["zzz", "created"] 300 reqScenario 2000
      (fun _ _ => []) (fun _ _ _ => .ok true)
      = .error ⟨"validation", "Invalid signature",
          "Missing required parameter \"zzz\" in signature input"⟩ ∧
    freshnessCheck [("keyid", .str "k")] 300 2000
      = .error ⟨"validation", "Invalid signature",
          "Missing required parameter \"created\" in signature input"⟩ :=
  ⟨rfl, rfl⟩

/-- **C3 counterexample**: for the two-entry header text
`a=1, sig1=("@method");created=5` the verification trailer is the raw text
after the first `=` — `1, sig1=("@method");created=5` — not the canonical
serialization `("@method");created=5` of the entry parsed under `sig1`, and
the rebuilt base's last line exposes exactly that raw slice. -/
theorem trailer_raw_slice_counterexample :
    decodeDict "a=1, sig1=(\"@method\");created=5"
      = .ok [("a", ⟨.bare (.int 1), []⟩),
             ("sig1", ⟨.inner [⟨.str "@method", []⟩], [("created", .int 5)]⟩)] ∧
    signatureParamsValue "a=1, sig1=(\"@method\");created=5"
      = "1, sig1=(\"@method\");created=5" ∧
    encodeItem ⟨.inner [⟨.str "@method", []⟩], [("created", .int 5)]⟩
      = "(\"@method\");created=5" ∧
    signatureParamsValue "a=1, sig1=(\"@method\");created=5"
      ≠ encodeItem ⟨.inner [⟨.str "@method", []⟩], [("created", .int 5)]⟩ ∧
    verifySignatureOfRequest "a=1, sig1=(\"@method\");created=5" "sig1=:AQID:"
      "sig1" [] [] 300 reqPort8443 4 (fun _ _ => [])
      (fun base _ _ => .error ⟨"capture", base, ""⟩)
      = .error ⟨"capture",
          "\"@method\": GET\n\"@signature-params\": 1, sig1=(\"@method\");created=5",
          ""⟩ := by
  refine ⟨rfl, rfl, rfl, ?_, rfl⟩
  decide

/-- **C3 amended**: when the signature-input header text is the canonical
serialization of a single-entry dictionary under a valid label — the shape
`createSignatureForRequest` emits — the trailer (the text after the label
and `=`) is exactly the serialization of that entry. -/
theorem trailer_of_canonical_singleton (label : String) (item : DictItem)
    (hl : isValidKeyB label = true) :
    signatureParamsValue (encodeDict [(label, item)]) = encodeItem item := by
  rw [show encodeDict [(label, item)] = label ++ "=" ++ encodeItem item from rfl]
  exact signatureParamsValue_label label (encodeItem item) (isValidKeyB_no_eq hl)

/-- **C3 amended witness**: the canonical-singleton trailer at `sig1=1`. -/
theorem trailer_of_canonical_singleton_witness :
    signatureParamsValue (encodeDict [("sig1", ⟨.bare (.int 1), []⟩)])
      = encodeItem (⟨.bare (.int 1), []⟩ : DictItem) :=
  trailer_of_canonical_singleton "sig1" ⟨.bare (.int 1), []⟩ (by decide)

/-- A request carrying the query parameter `a=1`:
`GET https://example.com/?a=1`. -/
def reqQP : Request :=
  { headers := []
    url := { protocol := "https:", hostname := "example.com", port := "",
             pathname := "/", query := some "a=1", searchParams := [("a", "1")] }
    method := "GET"
    body := none }

/-- **C4 counterexample**: a parameterized required identifier
`@query-param;name="a"` *does* match a parsed entry carrying the strictly
larger parameter set `name="a";foo="b"` — the check is a subset test, not
exact equality — and a full verification over that entry succeeds instead of
failing with a validation error. -/
theorem requiredInput_subset_matches_counterexample :
    findRequiredInput (.param "@query-param" [("name", .str "a")])
        [⟨.str "@query-param", [("name", .str "a"), ("foo", .str "b")]⟩]
      = some ⟨.str "@query-param", [("name", .str "a"), ("foo", .str "b")]⟩ ∧
    verifySignatureOfRequest
      "sig1=(\"@query-param\";name=\"a\";foo=\"b\");created=100" "sig1=:AQID:"
      "sig1" [.param "@query-param" [("name", .str "a")]] [] 300 reqQP 100
      (fun _ _ => []) (fun _ _ _ => .ok true)
      = .ok true :=
  ⟨rfl, rfl⟩

/-- **C4 amended**: the required-inputs check matches a parameterized
identifier against a parsed entry exactly when the component names are equal
and every *required* parameter is present (by last-wins lookup) with the
required value — extra parameters on the parsed entry are allowed. -/
theorem findRequiredInput_param_iff (c : String) (ps : List (String × SfValue))
    (items : List InnerItem) :
    (findRequiredInput (.param c ps) items).isSome = true
      ↔ ∃ it ∈ items, it.value = .str c
          ∧ ∀ p ∈ ps, lookupLast p.1 it.params = some p.2 := by
  simp [findRequiredInput, List.find?_isSome, Bool.and_eq_true,
    List.all_eq_true, decide_eq_true_eq]

/-- Every failure of the signing resolver carries a context that ends with
the canonical serialized key (`encodeInnerItem`) of the offending
component. -/
theorem resolveSign_error_context (it : InnerItem) (req : Request) (e : ErrorV)
    (h : resolveComponentSign it req = .error e) :
    ∃ p, e.context = p ++ encodeInnerItem it := by
  obtain ⟨v, ps⟩ := it
  cases v <;>
    simp only [resolveComponentSign] at h <;>
    (try split_ifs at h) <;>
    (try split at h) <;>
    first
      | exact Except.noConfusion h
      | (injection h with h2; subst h2; exact ⟨_, rfl⟩)

/-- **C7**: signing with component list `['content-type']` against a request
without that header fails with message exactly `Missing header: content-type`,
and every resolver failure — in the signing and the verification resolver
alike — embeds the canonical serialized key of the offending component
(including its parameters) in its context. -/
theorem missing_header_error_embeds_key :
    (createSignatureForRequest [.simple "content-type"] "sig1"
        [("keyid", .str "k")] reqPort8443 (fun _ _ => .ok [])
      = .error ⟨"validation", "Missing header: content-type",
          "Request is missing header \"content-type\" required in signature input for field \"content-type\""⟩) ∧
    (∀ (it : InnerItem) (req : Request) (e : ErrorV),
      resolveComponentSign it req = .error e →
        ∃ p, e.context = p ++ encodeInnerItem it) ∧
    (∀ (it : InnerItem) (req : Request) (e : ErrorV),
      resolveComponentVerify it req = .error e →
        ∃ p, e.context = p ++ encodeInnerItem it) := by
  refine ⟨rfl, fun it req e h => resolveSign_error_context it req e h,
    fun it req e h => resolveSign_error_context it req e ?_⟩
  rw [resolveComponentVerify_eq_sign] at h
  exact h

/-- **C7 witness**: the context suffix at the concrete missing-header
failure of `content-type`. -/
theorem missing_header_error_embeds_key_witness :
    ∃ p, (ErrorV.mk "validation" "Missing header: content-type"
        "Request is missing header \"content-type\" required in signature input for field \"content-type\"").context
      = p ++ encodeInnerItem ⟨.str "content-type", []⟩ :=
  missing_header_error_embeds_key.2.1 ⟨.str "content-type", []⟩ reqPort8443
    ⟨"validation", "Missing header: content-type",
      "Request is missing header \"content-type\" required in signature input for field \"content-type\""⟩
    rfl

/-! ## The sign/verify round trip -/

/-- A caller component identifier that survives the structured-field
round trip: the component name is a well-formed string value and, for a
parameterized identifier, the parameters are well-formed with distinct
keys. -/
def isValidSigInput : SigInput → Bool
  | .simple s => isValidStringB s
  | .param c ps => isValidStringB c && isValidParamsB ps
      && decide (ps.map Prod.fst).Nodup

theorem toItem_valid {L : List SigInput} (h : L.all isValidSigInput = true) :
    (L.map SigInput.toItem).all isValidInnerItemB = true := by
  rw [List.all_eq_true] at h ⊢
  intro it hit
  rw [List.mem_map] at hit
  obtain ⟨input, hin, rfl⟩ := hit
  have := h input hin
  cases input with
  | simple s =>
      simp only [isValidSigInput] at this
      simp [SigInput.toItem, isValidInnerItemB, isValidBareB, isValidParamsB, this]
  | param c ps =>
      simp only [isValidSigInput, Bool.and_eq_true] at this
      simp [SigInput.toItem, isValidInnerItemB, isValidBareB, this.1.1, this.1.2]

theorem toItem_isStr (L : List SigInput) :
    ((L.map SigInput.toItem).all fun it =>
      match it.value with
      | SfValue.str _ => true
      | _ => false) = true := by
  induction L with
  | nil => rfl
  | cons a r ih => cases a <;> simp [SigInput.toItem, ih]

theorem dictGet_singleton (k : String) (it : DictItem) :
    dictGet [(k, it)] k = some it := by
  simp [dictGet]

/-- Every valid caller identifier matches its own parsed entry in the
required-inputs check. -/
theorem findRequiredInput_self {input : SigInput} {L : List SigInput}
    (hin : input ∈ L) (hv : isValidSigInput input = true) :
    (findRequiredInput input (L.map SigInput.toItem)).isSome = true := by
  cases input with
  | simple s =>
      simp only [findRequiredInput, List.find?_isSome]
      exact ⟨⟨.str s, []⟩, List.mem_map.mpr ⟨_, hin, rfl⟩, by simp⟩
  | param c ps =>
      simp only [isValidSigInput, Bool.and_eq_true, decide_eq_true_eq] at hv
      simp only [findRequiredInput, List.find?_isSome]
      refine ⟨⟨.str c, ps⟩, List.mem_map.mpr ⟨_, hin, rfl⟩, ?_⟩
      simp only [Bool.and_eq_true, decide_eq_true_eq, List.all_eq_true]
      exact ⟨trivial, fun p hp => lookupLast_of_nodup hv.2 hp⟩

/-- **C1 counterexample**: signing `GET https://example.com:8443/` over
`['@method']` with parameters `{keyid:"k"}` (no `created`) succeeds, yet
replaying the returned strings through `verifySignatureOfRequest` with the
same label, `requiredInputs = L`, `requiredParams = keys(P)`,
`maxAge = 300 ≥ 0`, the same request and the matching verify callback is
rejected at the freshness stage: the round trip fails for parameter maps
without a truthy numeric `created`. -/
theorem sign_verify_roundtrip_counterexample :
    createSignatureForRequest [.simple "@method"] "sig1" [("keyid", .str "k")]
      reqPort8443 (fun _ _ => .ok [1, 2, 3])
      = .ok ⟨"sig1=(\"@method\");keyid=\"k\"", "sig1=:AQID:",
          "\"@method\": GET\n\"@signature-params\": (\"@method\");keyid=\"k\""⟩ ∧
    verifySignatureOfRequest "sig1=(\"@method\");keyid=\"k\"" "sig1=:AQID:"
      "sig1" [.simple "@method"] ["keyid"] 300 reqPort8443 1000 (fun _ _ => [])
      (fun _ _ sig => if sig = [1, 2, 3] then .ok true
        else .error ⟨"verification", "Signature mismatch", ""⟩)
      = .error ⟨"validation", "Invalid signature",
          "Missing required parameter \"created\" in signature input"⟩ :=
  ⟨rfl, rfl⟩

/-- **C1 amended**: signing request `req` over component list `L` (valid,
non-empty, no `content-digest` component) with parameters `P` (valid, with a
truthy integer `created = c` that is fresh: `now - c ≤ maxAge`), a valid
label, and a deterministic in-range sign callback `S`, and then replaying
the returned `signatureInput` and `signature` strings through
`verifySignatureOfRequest` with the same label, `requiredInputs = L`,
`requiredParams = keys(P)`, the same request and the matching verify
callback of `S`, succeeds with `Ok(true)`. -/
theorem sign_verify_roundtrip
    (L : List SigInput) (label : String) (P : Params) (req : Request)
    (maxAge now c : Int)
    (S : String → Params → List Nat) (out : SignOutput)
    (digestFn : String → List Nat → List Nat)
    (hL : L ≠ [])
    (hLv : L.all isValidSigInput = true)
    (hCD : (L.map SigInput.toItem).all
      (fun it => !decide (it.value = .str "content-digest")) = true)
    (hlabel : isValidKeyB label = true)
    (hP : isValidParamsB P = true)
    (hcreated : lookupLast "created" P = some (.int c))
    (hc0 : c ≠ 0)
    (hfresh : now - c ≤ maxAge)
    (hS : ∀ b p, (S b p).all (· < 256) = true)
    (hsig : createSignatureForRequest L label P req (fun b p => .ok (S b p)) = .ok out) :
    verifySignatureOfRequest out.signatureInput out.signature label
      L (P.map Prod.fst) maxAge req now digestFn
      (fun b p sig => if sig = S b p then .ok true
        else .error ⟨"verification", "Signature mismatch", ""⟩)
      = .ok true := by
  obtain ⟨pairs, sigBytes, hpairs, hsign, hout⟩ := createSignatureForRequest_ok hsig
  subst hout
  have hitem : isValidDictItemB ⟨.inner (L.map SigInput.toItem), P⟩ = true := by
    simp only [isValidDictItemB, Bool.and_eq_true]
    exact ⟨toItem_valid hLv, hP⟩
  have hdec1 : decodeDict (encodeDict [(label, ⟨.inner (L.map SigInput.toItem), P⟩)])
      = .ok [(label, ⟨.inner (L.map SigInput.toItem), P⟩)] :=
    decodeDict_encodeDict_singleton label _ hlabel hitem
  have hsb : S (assembleBase pairs
      (jsSliceFrom (encodeDict [(label, ⟨.inner (L.map SigInput.toItem), P⟩)])
        (label.length + 1))) P = sigBytes := Except.ok.inj hsign
  have hsbytes : sigBytes.all (· < 256) = true := by rw [← hsb]; exact hS _ _
  have hdec2 : decodeDict (encodeDict [(label, ⟨.bare (.bytes sigBytes), []⟩)])
      = .ok [(label, ⟨.bare (.bytes sigBytes), []⟩)] := by
    refine decodeDict_encodeDict_singleton label _ hlabel ?_
    simp [isValidDictItemB, isValidBareB, isValidParamsB, hsbytes]
  have hlen : ¬ (L.map SigInput.toItem).length < 1 := by
    have := List.length_pos.mpr hL
    simp only [List.length_map]
    omega
  have hall := toItem_isStr L
  have hfind1 : (L.find? fun input =>
      (findRequiredInput input (L.map SigInput.toItem)).isNone) = none := by
    rw [List.find?_eq_none]
    intro input hin
    have hs := findRequiredInput_self hin
      (by rw [List.all_eq_true] at hLv; exact hLv input hin)
    cases hopt : findRequiredInput input (L.map SigInput.toItem) with
    | none => rw [hopt] at hs; simp at hs
    | some it => simp
  have hfind2 : ((P.map Prod.fst).find? fun rp => (lookupLast rp P).isNone) = none := by
    rw [List.find?_eq_none]
    intro k hk
    have hs := lookupLast_isSome_of_mem hk
    cases hopt : lookupLast k P with
    | none => rw [hopt] at hs; simp at hs
    | some v => simp
  have hfindCD : ((L.map SigInput.toItem).find? fun item =>
      decide (item.value = .str "content-digest")) = none := by
    rw [List.find?_eq_none]
    intro it hit
    rw [List.all_eq_true] at hCD
    have hd := hCD it hit
    simp only [Bool.not_eq_true'] at hd
    simp [hd]
  have hfreshok : freshnessCheck P maxAge now = .ok () := by
    have hfalsy : jsFalsy (some (.int c)) = false := by simp [jsFalsy, hc0]
    simp only [freshnessCheck, hcreated, hfalsy, Bool.false_eq_true, if_false]
    rw [if_neg (by omega)]
  have hbpv : buildPairsVerify (L.map SigInput.toItem) req = .ok pairs := by
    rw [buildPairsVerify_map]; exact hpairs
  have htrail : signatureParamsValue
      (encodeDict [(label, ⟨.inner (L.map SigInput.toItem), P⟩)])
      = encodeItem ⟨.inner (L.map SigInput.toItem), P⟩ := by
    rw [show encodeDict [(label, (⟨.inner (L.map SigInput.toItem), P⟩ : DictItem))]
        = label ++ "=" ++ encodeItem ⟨.inner (L.map SigInput.toItem), P⟩ from rfl]
    exact signatureParamsValue_label _ _ (isValidKeyB_no_eq hlabel)
  have hjs : jsSliceFrom (encodeDict [(label, ⟨.inner (L.map SigInput.toItem), P⟩)])
      (label.length + 1) = encodeItem ⟨.inner (L.map SigInput.toItem), P⟩ := by
    rw [show encodeDict [(label, (⟨.inner (L.map SigInput.toItem), P⟩ : DictItem))]
        = label ++ "=" ++ encodeItem ⟨.inner (L.map SigInput.toItem), P⟩ from rfl]
    exact jsSliceFrom_label _ _
  rw [hjs] at hsb
  show verifySignatureOfRequest
      (encodeDict [(label, ⟨.inner (L.map SigInput.toItem), P⟩)])
      (encodeDict [(label, ⟨.bare (.bytes sigBytes), []⟩)]) label L (P.map Prod.fst)
      maxAge req now digestFn _ = .ok true
  simp only [verifySignatureOfRequest, hdec1, hdec2, dictGet_singleton, digestCheck,
    hfind1, hfind2, hfindCD, hfreshok, hbpv, htrail, hall, Bool.not_true,
    Bool.false_eq_true, if_false, if_neg hlen]
  rw [← hsb]
  rw [if_pos rfl]

/-- **C1 amended witness**: the round trip at `GET https://example.com:8443/`,
`L = ['@method']`, `P = {keyid:"k", created:42}`, `now = 43`, `maxAge = 300`,
constant signature bytes `[1, 2, 3]`. -/
theorem sign_verify_roundtrip_witness :
    verifySignatureOfRequest "sig1=(\"@method\");keyid=\"k\";created=42"
      "sig1=:AQID:" "sig1" [.simple "@method"] ["keyid", "created"] 300
      reqPort8443 43 (fun _ _ => [])
      (fun _ _ sig => if sig = [1, 2, 3] then .ok true
        else .error ⟨"verification", "Signature mismatch", ""⟩)
      = .ok true :=
  sign_verify_roundtrip [.simple "@method"] "sig1"
    [("keyid", .str "k"), ("created", .int 42)] reqPort8443 300 43 42
    (fun _ _ => [1, 2, 3])
    ⟨"sig1=(\"@method\");keyid=\"k\";created=42", "sig1=:AQID:",
      "\"@method\": GET\n\"@signature-params\": (\"@method\");keyid=\"k\";created=42"⟩
    (fun _ _ => []) (by decide) (by decide) (by decide) (by decide) (by decide)
    rfl (by decide) (by decide) (fun _ _ => rfl) rfl
